import Mathlib

/-!
# Document classification engine: shallow embedding

A shallow embedding of `src/server/src/handlers/classify_document.ts`
(the `classifyDocument` handler) together with the data model of
`src/server/src/db/schema.ts`, and proofs of the specification claims
about the classification pipeline (scorer, selector, confidence mapper,
orchestration, persistence frame).

Modelling conventions:
* Database rows become Lean structures; `serial` ids and foreign keys are `ℕ`.
* The `numeric` columns (`weight`, `confidence_score`) and the JavaScript
  number arithmetic on them are modelled with `ℚ` (ideal real arithmetic);
  the `numeric(4,3)` storage round-trip of the confidence score is treated
  as exact.
* `timestamp defaultNow()` columns are outside the model (no claim
  mentions them).
* The database is a `DBState` (a list per table, each list in the order
  the store would return the rows); `db.select ... where eq id` becomes
  `List.find?` / `List.filter`, and the single `db.insert` becomes an
  append to `results`.
* JavaScript `RegExp` compilation is an abstract parameter
  `compile : String → Except Unit (String → Bool)`: `Except.error` is a
  thrown compilation error (caught by the handler's `try/catch`),
  `Except.ok test` is a compiled case-insensitive regex `test` function.
  Theorems quantify over `compile`; concrete runs use `jsCompile`, a
  faithful model of `RegExp` on plain literal patterns.
* The `matched_criteria` column is stored via `JSON.stringify` and read
  back via `JSON.parse`; the round-trip is modelled as the identity on
  the list of names.
-/

namespace DocClassifier

/-- `file_type` enum of `db/schema.ts` (`pdf | docx | txt`). -/
inductive FileType
  | pdf
  | docx
  | txt
deriving DecidableEq, Repr

/-- `confidence_level` enum of `db/schema.ts` (`low | medium | high`). -/
inductive ConfidenceLevel
  | low
  | medium
  | high
deriving DecidableEq, Repr

/-- A row of `categoriesTable` (timestamp column omitted). -/
structure Category where
  id : ℕ
  name : String
  color : String
  description : Option String
deriving DecidableEq, Repr

/-- A row of `criteriaTable` (timestamp column omitted).  The `weight`
field carries the value of `parseFloat(criteria.weight)` as an exact
rational. -/
structure Criteria where
  id : ℕ
  category_id : ℕ
  name : String
  pattern : String
  weight : ℚ
deriving DecidableEq, Repr

/-- A row of `documentsTable` (timestamp column omitted); `content` is a
nullable text column. -/
structure Document where
  id : ℕ
  filename : String
  file_type : FileType
  file_size : ℕ
  content : Option String
deriving DecidableEq, Repr

/-- A row of `classificationResultsTable` (timestamp column omitted);
`matched_criteria` holds the JSON-decoded list of criterion names. -/
structure ClassificationResult where
  id : ℕ
  document_id : ℕ
  category_id : ℕ
  confidence_level : ConfidenceLevel
  confidence_score : ℚ
  classification_method : String
  matched_criteria : List String
deriving DecidableEq, Repr

/-- The database state seen by the handler: one list per table, each in
the order the store returns its rows. -/
structure DBState where
  documents : List Document
  categories : List Category
  criteria : List Criteria
  results : List ClassificationResult
deriving DecidableEq, Repr

/-- The error taxonomy of the handler's `throw new Error(...)` sites. -/
inductive ClassifyError
  | documentNotFound
  | noContent
  | noCriteria
  | noMatch
deriving DecidableEq, Repr

/-- The `ClassificationResponse` shape returned on success (step 8 of the
handler); `result.confidence_score` and `result.matched_criteria` are the
values after the string round-trip, modelled as the stored values. -/
structure ClassificationResponse where
  document : Document
  result : ClassificationResult
  category : Category
  matched_criteria_details : List Criteria
deriving DecidableEq, Repr

/-- Model of JavaScript `String.prototype.toLowerCase()`: lower-case every
character. -/
def strToLower (s : String) : String :=
  String.mk (s.data.map Char.toLower)

/-- Substring search on character lists: does `haystack` contain `needle`
as a contiguous run?  (Model of JavaScript `String.prototype.includes`.) -/
def listIncludes (haystack needle : List Char) : Bool :=
  match haystack with
  | [] => needle.isEmpty
  | _ :: rest => needle.isPrefixOf haystack || listIncludes rest needle

/-- Model of JavaScript `s.includes(sub)`. -/
def strIncludes (s sub : String) : Bool :=
  listIncludes s.data sub.data

/-- Model of JavaScript `Math.min` on two (non-NaN) numbers. -/
def ratMin (a b : ℚ) : ℚ :=
  if a ≤ b then a else b

/-- The per-criterion match test of the handler (lines 57–66): try to
compile the pattern as a case-insensitive regex and `test` it against the
(already lower-cased) document content; if compilation throws, fall back
to `documentContent.includes(criteria.pattern.toLowerCase())`. -/
def matchCriterion (compile : String → Except Unit (String → Bool))
    (pat documentContent : String) : Bool :=
  match compile pat with
  | Except.ok test => test documentContent
  | Except.error _ => strIncludes documentContent (strToLower pat)

/-- Is `c` a character with no meaning in regex syntax (ASCII letter,
digit or space)? -/
def plainChar (c : Char) : Bool :=
  c.isAlphanum || c == ' '

/-- Model of JavaScript `new RegExp(pattern, 'i')` restricted to plain
literal patterns: a pattern made only of letters, digits and spaces
compiles to a case-insensitive literal search (exactly what `RegExp`
does to such a pattern); every other pattern is treated as failing to
compile.  Used only to run the model on concrete inputs whose patterns
are plain literals or clearly invalid regexes, where this model agrees
with the JavaScript engine. -/
def jsCompile (pat : String) : Except Unit (String → Bool) :=
  if pat.data.all plainChar then
    Except.ok (fun text => strIncludes (strToLower text) (strToLower pat))
  else
    Except.error ()

/-- One value of the handler's `categoryScores` record: running score,
matched-criteria list, and the category row. -/
structure CategoryScore where
  score : ℚ
  matchedCriteria : List Criteria
  category : Category
deriving DecidableEq, Repr

/-- The keyed update `categoryScores[category.id].score += weight;
categoryScores[category.id].matchedCriteria.push({...})` (lines 69–75),
applied to one entry of the record: the entry under the category's key
gets the weight added and the criterion appended, every other entry is
untouched. -/
def bumpEntry (criteria : Criteria) (catId : ℕ) (e : ℕ × CategoryScore) :
    ℕ × CategoryScore :=
  if e.1 == catId then
    (e.1, ⟨e.2.score + criteria.weight,
           e.2.matchedCriteria ++ [criteria], e.2.category⟩)
  else e

/-- Lines 48–55 of the handler: create the row's category entry in the
record, with score 0 and empty matched list, unless its key already
exists. -/
def initEntry (acc : List (ℕ × CategoryScore)) (row : Criteria × Category) :
    List (ℕ × CategoryScore) :=
  if acc.any (fun e => e.1 == row.2.id) then acc
  else acc ++ [(row.2.id, ⟨0, [], row.2⟩)]

/-- One iteration of the handler's scoring loop (lines 43–77) over the
`categoryScores` record, modelled as an association list whose key order
is insertion order (exactly the record's own contents): create the
category's entry with score 0 if it is absent, then on a pattern match
add the weight and append the criterion. -/
def scoreStep (compile : String → Except Unit (String → Bool))
    (documentContent : String) (acc : List (ℕ × CategoryScore))
    (row : Criteria × Category) : List (ℕ × CategoryScore) :=
  if matchCriterion compile row.1.pattern documentContent then
    (initEntry acc row).map (bumpEntry row.1 row.2.id)
  else initEntry acc row

/-- The handler's scoring loop: fold `scoreStep` over the retrieved
criteria-with-category rows, starting from the empty record. -/
def computeScores (compile : String → Except Unit (String → Bool))
    (documentContent : String) (rows : List (Criteria × Category)) :
    List (ℕ × CategoryScore) :=
  rows.foldl (scoreStep compile documentContent) []

/-- `Object.entries(categoryScores)`: ECMAScript enumerates the
integer-like keys of a record in ascending numeric order (regardless of
insertion order), so the entries are the association list sorted by key. -/
def entriesAscending (m : List (ℕ × CategoryScore)) : List (ℕ × CategoryScore) :=
  List.insertionSort (fun a b => a.1 ≤ b.1) m

/-- The body of the handler's selection loop (lines 83–88), folded from
an arbitrary accumulator `(bestCategoryId, bestScore)`: an entry replaces
the accumulator exactly when its score is strictly greater. -/
def selectGo (acc : Option ℕ × ℚ) (entries : List (ℕ × CategoryScore)) :
    Option ℕ × ℚ :=
  entries.foldl
    (fun best e => if e.2.score > best.2 then (some e.1, e.2.score) else best)
    acc

/-- The handler's selection loop (lines 80–88): scan the entries once,
keeping the first strictly greater score; `bestCategoryId` starts `null`
and `bestScore` starts 0. -/
def selectLoop (entries : List (ℕ × CategoryScore)) : Option ℕ × ℚ :=
  selectGo (none, 0) entries

/-- The running maximum that the selection loop's `bestScore` tracks: the
fold of `max` over the entry scores, from initial value `s`. -/
def maxScoreFrom (s : ℚ) (entries : List (ℕ × CategoryScore)) : ℚ :=
  entries.foldl (fun a e => max a e.2.score) s

/-- The greatest entry score, floored at the loop's initial `bestScore`
of 0. -/
def maxScore (entries : List (ℕ × CategoryScore)) : ℚ :=
  maxScoreFrom 0 entries

/-- The confidence bucketing of the handler (lines 96–104): `bestScore`
at least 2 is `high`, at least 1 is `medium`, anything below is `low`. -/
def confidenceLevelOf (bestScore : ℚ) : ConfidenceLevel :=
  if bestScore ≥ 2 then ConfidenceLevel.high
  else if bestScore ≥ 1 then ConfidenceLevel.medium
  else ConfidenceLevel.low

/-- The score normalization of the handler (line 107):
`Math.min(bestScore / 3.0, 1.0)`. -/
def normalizedScoreOf (bestScore : ℚ) : ℚ :=
  ratMin (bestScore / 3) 1

/-- The `innerJoin` of `criteriaTable` with `categoriesTable` on
`criteria.category_id = categories.id` (lines 25–28), in the criteria
table's return order; a criterion with a dangling `category_id` simply
produces no row. -/
def fetchCriteriaWithCategories (st : DBState) : List (Criteria × Category) :=
  st.criteria.filterMap (fun c =>
    (st.categories.find? (fun cat => cat.id == c.category_id)).map
      (fun cat => (c, cat)))

/-- The `classifyDocument` handler
(`src/server/src/handlers/classify_document.ts`).  Returns the response
or the thrown error, together with the database state after the call
(unchanged on every error; one appended `ClassificationResult` row on
success, whose generated serial id is modelled as `results.length + 1`).

The branch on a failed `categoryScores` lookup mirrors the JavaScript
indexing `categoryScores[bestCategoryId]`; it is proved unreachable below
(`selectLoop` only ever returns a key present in the record). -/
def classifyDocument (compile : String → Except Unit (String → Bool))
    (document_id : ℕ) (st : DBState) :
    Except ClassifyError ClassificationResponse × DBState :=
  match st.documents.find? (fun d => d.id == document_id) with
  | none => (Except.error ClassifyError.documentNotFound, st)
  | some document =>
    if document.content = none ∨ document.content = some "" then
      (Except.error ClassifyError.noContent, st)
    else
      let criteriaWithCategories := fetchCriteriaWithCategories st
      if criteriaWithCategories.isEmpty then
        (Except.error ClassifyError.noCriteria, st)
      else
        let documentContent := strToLower (document.content.getD "")
        let categoryScores := computeScores compile documentContent criteriaWithCategories
        let best := selectLoop (entriesAscending categoryScores)
        match best.1 with
        | none => (Except.error ClassifyError.noMatch, st)
        | some bestCategoryId =>
          if bestCategoryId = 0 ∨ best.2 = 0 then
            (Except.error ClassifyError.noMatch, st)
          else
            match categoryScores.find? (fun e => e.1 == bestCategoryId) with
            | none => (Except.error ClassifyError.noMatch, st)
            | some entry =>
              let bestCategory := entry.2
              let confidenceLevel := confidenceLevelOf best.2
              let normalizedScore := normalizedScoreOf best.2
              let newResult : ClassificationResult :=
                { id := st.results.length + 1
                  document_id := document_id
                  category_id := bestCategoryId
                  confidence_level := confidenceLevel
                  confidence_score := normalizedScore
                  classification_method := "Pattern Matching"
                  matched_criteria := bestCategory.matchedCriteria.map (fun c => c.name) }
              let matchedCriteriaIds := bestCategory.matchedCriteria.map (fun c => c.id)
              let filteredCriteriaDetails :=
                (st.criteria.filter (fun c => c.category_id == bestCategoryId)).filter
                  (fun c => matchedCriteriaIds.contains c.id)
              (Except.ok
                { document := document
                  result := newResult
                  category := bestCategory.category
                  matched_criteria_details := filteredCriteriaDetails },
               { st with results := st.results ++ [newResult] })

/-- Does this row match the document content?  (The row's criterion
pattern, tested by `matchCriterion`.) -/
def rowMatches (compile : String → Except Unit (String → Bool))
    (documentContent : String) (row : Criteria × Category) : Bool :=
  matchCriterion compile row.1.pattern documentContent

/-- Closed form of a category's raw score: the sum of the weights of
exactly the rows of that category whose pattern matches. -/
def catRawScore (compile : String → Except Unit (String → Bool))
    (documentContent : String) (rows : List (Criteria × Category)) (cid : ℕ) : ℚ :=
  ((rows.filter (fun row => row.2.id == cid &&
      rowMatches compile documentContent row)).map (fun row => row.1.weight)).sum

/-- Closed form of a category's matched-criteria list: the criteria of
exactly the rows of that category whose pattern matches, in row order. -/
def catMatched (compile : String → Except Unit (String → Bool))
    (documentContent : String) (rows : List (Criteria × Category)) (cid : ℕ) :
    List Criteria :=
  (rows.filter (fun row => row.2.id == cid &&
      rowMatches compile documentContent row)).map (fun row => row.1)

/-- The record keys produced by the scoring loop: the category ids of the
rows, deduplicated keeping first occurrences (insertion order). -/
def keysOf (rows : List (Criteria × Category)) : List ℕ :=
  rows.foldl (fun acc row => if row.2.id ∈ acc then acc else acc ++ [row.2.id]) []

/-- Association-list lookup on the `categoryScores` record (the first
entry with the given key, as JavaScript property access would find the
unique one). -/
def lookupScore (m : List (ℕ × CategoryScore)) (cid : ℕ) : Option CategoryScore :=
  (m.find? (fun e => e.1 == cid)).map (fun e => e.2)

/-- Modelled from the spec: the Selector the specification describes,
scanning the categories in the order they are *first encountered* while
evaluating the retrieved criteria sequence and keeping the first-seen
maximum.  Written from the spec's words for refinement comparison with
`selectLoop ∘ entriesAscending` (the code's scan). -/
def specSelectorFirstEncounter (compile : String → Except Unit (String → Bool))
    (documentContent : String) (rows : List (Criteria × Category)) : Option ℕ × ℚ :=
  ((keysOf rows).map (fun cid =>
      (cid, catRawScore compile documentContent rows cid))).foldl
    (fun best e => if e.2 > best.2 then (some e.1, e.2) else best)
    (none, 0)

/-- The lower-cased document content the handler scores against
(line 41); an absent content never reaches this point. -/
def docText (d : Document) : String :=
  strToLower (d.content.getD "")

/-- The `ClassificationResult` row the handler builds and inserts for a
winning category (lines 96–120), in terms of the closed-form score and
matched list. -/
def winningResult (compile : String → Except Unit (String → Bool))
    (docId : ℕ) (st : DBState) (text : String)
    (rows : List (Criteria × Category)) (cid : ℕ) : ClassificationResult :=
  { id := st.results.length + 1
    document_id := docId
    category_id := cid
    confidence_level := confidenceLevelOf (catRawScore compile text rows cid)
    confidence_score := normalizedScoreOf (catRawScore compile text rows cid)
    classification_method := "Pattern Matching"
    matched_criteria := (catMatched compile text rows cid).map (fun c => c.name) }

/-- The `matched_criteria_details` list the handler returns (lines
124–136): the criteria table filtered to the winning category and then to
the matched ids, in terms of the closed-form matched list. -/
def winningDetails (compile : String → Except Unit (String → Bool))
    (st : DBState) (text : String) (rows : List (Criteria × Category))
    (cid : ℕ) : List Criteria :=
  (st.criteria.filter (fun c => c.category_id == cid)).filter
    (fun c => ((catMatched compile text rows cid).map (fun c2 => c2.id)).contains c.id)

theorem docText_eq (d : Document) :
    strToLower (d.content.getD "") = docText d := rfl

/-- A list of rationals with positive sum contains a positive element. -/
theorem exists_pos_of_sum_pos (l : List ℚ) (h : 0 < l.sum) : ∃ x ∈ l, 0 < x := by
  induction l with
  | nil => simp at h
  | cons a t ih =>
    by_cases ha : 0 < a
    · exact ⟨a, List.mem_cons_self a t, ha⟩
    · have ht : 0 < t.sum := by
        push_neg at ha
        rw [List.sum_cons] at h
        linarith
      obtain ⟨x, hx, hx0⟩ := ih ht
      exact ⟨x, List.mem_cons_of_mem _ hx, hx0⟩

/-- `Array.prototype.some`-style key membership test on the record. -/
theorem any_key_iff (acc : List (ℕ × CategoryScore)) (cid : ℕ) :
    acc.any (fun e => e.1 == cid) = true ↔ cid ∈ acc.map Prod.fst := by
  rw [List.any_eq_true]
  simp only [beq_iff_eq, List.mem_map]

/-- `bumpEntry` never changes an entry's key. -/
theorem bumpEntry_fst (c : Criteria) (k : ℕ) (e : ℕ × CategoryScore) :
    (bumpEntry c k e).1 = e.1 := by
  unfold bumpEntry
  split <;> rfl

/-- Key search commutes with the keyed update. -/
theorem find?_map_bumpEntry (c : Criteria) (k cid : ℕ)
    (m : List (ℕ × CategoryScore)) :
    (m.map (bumpEntry c k)).find? (fun e => e.1 == cid) =
      (m.find? (fun e => e.1 == cid)).map (bumpEntry c k) := by
  have hp : ((fun e : ℕ × CategoryScore => e.1 == cid) ∘ bumpEntry c k) =
      (fun e : ℕ × CategoryScore => e.1 == cid) := by
    funext e
    simp [Function.comp, bumpEntry_fst]
  rw [List.find?_map, hp]

theorem lookupScore_mem_key (m : List (ℕ × CategoryScore)) (cid : ℕ)
    (cs : CategoryScore) (h : lookupScore m cid = some cs) :
    cid ∈ m.map Prod.fst := by
  unfold lookupScore at h
  cases hf : m.find? (fun e => e.1 == cid) with
  | none => rw [hf] at h; simp at h
  | some e =>
    have he := List.mem_of_find?_eq_some hf
    have hk := List.find?_some hf
    simp only [beq_iff_eq] at hk
    exact hk ▸ List.mem_map_of_mem Prod.fst he

theorem lookupScore_none_not_mem (m : List (ℕ × CategoryScore)) (cid : ℕ)
    (h : lookupScore m cid = none) : cid ∉ m.map Prod.fst := by
  unfold lookupScore at h
  rw [Option.map_eq_none'] at h
  rw [List.find?_eq_none] at h
  intro hmem
  rw [List.mem_map] at hmem
  obtain ⟨e, he, hek⟩ := hmem
  exact absurd (by simp [hek]) (h e he)

/-- Appending a fresh entry under a different key does not change a lookup. -/
theorem lookupScore_append_ne (m : List (ℕ × CategoryScore)) (cid k : ℕ)
    (v : CategoryScore) (h : k ≠ cid) :
    lookupScore (m ++ [(k, v)]) cid = lookupScore m cid := by
  unfold lookupScore
  rw [List.find?_append]
  have hk : (k == cid) = false := by
    simp only [beq_eq_false_iff_ne, ne_eq]
    exact h
  have : List.find? (fun e => e.1 == cid) [(k, v)] = none := by
    simp [List.find?, hk]
  rw [this, Option.or_none]

/-- Appending a fresh entry under an absent key makes it found. -/
theorem lookupScore_append_self (m : List (ℕ × CategoryScore)) (cid : ℕ)
    (v : CategoryScore) (h : lookupScore m cid = none) :
    lookupScore (m ++ [(cid, v)]) cid = some v := by
  unfold lookupScore at *
  rw [List.find?_append]
  rw [Option.map_eq_none'] at h
  rw [h]
  simp [List.find?]

/-- The keyed update under a different key does not change a lookup. -/
theorem lookupScore_map_bump_ne (c : Criteria) (k cid : ℕ)
    (m : List (ℕ × CategoryScore)) (h : k ≠ cid) :
    lookupScore (m.map (bumpEntry c k)) cid = lookupScore m cid := by
  unfold lookupScore
  rw [find?_map_bumpEntry]
  cases hf : m.find? (fun e => e.1 == cid) with
  | none => simp
  | some e =>
    have hk := List.find?_some hf
    simp only [beq_iff_eq] at hk
    have : bumpEntry c k e = e := by
      unfold bumpEntry
      have : (e.1 == k) = false := by simp [hk, h.symm]
      simp [this]
    simp [this]

/-- The keyed update under the looked-up key adds the weight and appends
the criterion. -/
theorem lookupScore_map_bump_self (c : Criteria) (cid : ℕ)
    (m : List (ℕ × CategoryScore)) (cs : CategoryScore)
    (h : lookupScore m cid = some cs) :
    lookupScore (m.map (bumpEntry c cid)) cid =
      some ⟨cs.score + c.weight, cs.matchedCriteria ++ [c], cs.category⟩ := by
  unfold lookupScore at *
  rw [find?_map_bumpEntry]
  cases hf : m.find? (fun e => e.1 == cid) with
  | none => rw [hf] at h; simp at h
  | some e =>
    rw [hf] at h
    simp only [Option.map_some'] at h
    rw [Option.some_inj] at h
    subst h
    have hk := List.find?_some hf
    simp only [beq_iff_eq] at hk
    have : bumpEntry c cid e =
        (e.1, ⟨e.2.score + c.weight, e.2.matchedCriteria ++ [c], e.2.category⟩) := by
      unfold bumpEntry
      simp [hk]
    simp [this]

/-- Creating an entry for some other category does not change a lookup. -/
theorem initEntry_lookup_ne (acc : List (ℕ × CategoryScore))
    (row : Criteria × Category) (cid : ℕ) (h : row.2.id ≠ cid) :
    lookupScore (initEntry acc row) cid = lookupScore acc cid := by
  unfold initEntry
  split_ifs with h1
  · rfl
  · exact lookupScore_append_ne _ _ _ _ h

/-- If the row's category is already in the record, `initEntry` is the
identity. -/
theorem initEntry_of_mem (acc : List (ℕ × CategoryScore))
    (row : Criteria × Category) (h : row.2.id ∈ acc.map Prod.fst) :
    initEntry acc row = acc := by
  unfold initEntry
  rw [if_pos ((any_key_iff _ _).mpr h)]

/-- If the row's category is absent, `initEntry` appends a zero entry. -/
theorem initEntry_of_not_mem (acc : List (ℕ × CategoryScore))
    (row : Criteria × Category) (h : row.2.id ∉ acc.map Prod.fst) :
    initEntry acc row = acc ++ [(row.2.id, ⟨0, [], row.2⟩)] := by
  unfold initEntry
  rw [if_neg (by rw [any_key_iff]; exact h)]

/-- A scoring iteration for a row of some other category leaves a
category's record entry unchanged. -/
theorem scoreStep_lookup_ne (compile : String → Except Unit (String → Bool))
    (text : String) (acc : List (ℕ × CategoryScore)) (row : Criteria × Category)
    (cid : ℕ) (h : row.2.id ≠ cid) :
    lookupScore (scoreStep compile text acc row) cid = lookupScore acc cid := by
  unfold scoreStep
  split_ifs with h1
  · rw [lookupScore_map_bump_ne _ _ _ _ h, initEntry_lookup_ne _ _ _ h]
  · exact initEntry_lookup_ne _ _ _ h

/-- A scoring iteration for a row of a category already present in the
record: on a match the weight is added and the criterion appended,
otherwise nothing changes. -/
theorem scoreStep_lookup_self_some (compile : String → Except Unit (String → Bool))
    (text : String) (acc : List (ℕ × CategoryScore)) (row : Criteria × Category)
    (cid : ℕ) (cs : CategoryScore) (hid : row.2.id = cid)
    (h : lookupScore acc cid = some cs) :
    lookupScore (scoreStep compile text acc row) cid =
      some (if matchCriterion compile row.1.pattern text then
              ⟨cs.score + row.1.weight, cs.matchedCriteria ++ [row.1], cs.category⟩
            else cs) := by
  unfold scoreStep
  have hinit : initEntry acc row = acc :=
    initEntry_of_mem _ _ (hid ▸ lookupScore_mem_key _ _ _ h)
  rw [hinit]
  split_ifs with h2
  · exact hid ▸ lookupScore_map_bump_self _ _ _ _ (hid ▸ h)
  · exact h

/-- A scoring iteration for a row of a category not yet in the record:
the entry is created, with the row's weight and criterion if it matches
and score 0 otherwise. -/
theorem scoreStep_lookup_self_none (compile : String → Except Unit (String → Bool))
    (text : String) (acc : List (ℕ × CategoryScore)) (row : Criteria × Category)
    (cid : ℕ) (hid : row.2.id = cid) (h : lookupScore acc cid = none) :
    lookupScore (scoreStep compile text acc row) cid =
      some (if matchCriterion compile row.1.pattern text then
              ⟨row.1.weight, [row.1], row.2⟩
            else ⟨0, [], row.2⟩) := by
  unfold scoreStep
  have hinit : initEntry acc row = acc ++ [(row.2.id, ⟨0, [], row.2⟩)] :=
    initEntry_of_not_mem _ _ (hid ▸ lookupScore_none_not_mem _ _ h)
  rw [hinit]
  have happ : lookupScore (acc ++ [(row.2.id, ⟨0, [], row.2⟩)]) cid =
      some ⟨0, [], row.2⟩ := by
    subst hid
    exact lookupScore_append_self _ _ _ h
  split_ifs with h2
  · have := lookupScore_map_bump_self row.1 cid
      (acc ++ [(row.2.id, ⟨0, [], row.2⟩)]) ⟨0, [], row.2⟩ happ
    rw [hid] at this ⊢
    simpa using this
  · exact happ

/-- Raw-score closed form, cons case for a matching row of the category. -/
theorem catRawScore_cons_match (compile : String → Except Unit (String → Bool))
    (text : String) (row : Criteria × Category) (rest : List (Criteria × Category))
    (cid : ℕ) (h1 : row.2.id = cid)
    (h2 : matchCriterion compile row.1.pattern text = true) :
    catRawScore compile text (row :: rest) cid =
      row.1.weight + catRawScore compile text rest cid := by
  unfold catRawScore
  rw [List.filter_cons, if_pos (by simp [h1, rowMatches, h2])]
  rw [List.map_cons, List.sum_cons]

/-- Raw-score closed form, cons case for a row that does not contribute. -/
theorem catRawScore_cons_skip (compile : String → Except Unit (String → Bool))
    (text : String) (row : Criteria × Category) (rest : List (Criteria × Category))
    (cid : ℕ)
    (h : row.2.id ≠ cid ∨ matchCriterion compile row.1.pattern text = false) :
    catRawScore compile text (row :: rest) cid =
      catRawScore compile text rest cid := by
  unfold catRawScore
  rw [List.filter_cons, if_neg]
  rcases h with h | h <;> simp [rowMatches, h]

/-- Matched-list closed form, cons case for a matching row. -/
theorem catMatched_cons_match (compile : String → Except Unit (String → Bool))
    (text : String) (row : Criteria × Category) (rest : List (Criteria × Category))
    (cid : ℕ) (h1 : row.2.id = cid)
    (h2 : matchCriterion compile row.1.pattern text = true) :
    catMatched compile text (row :: rest) cid =
      row.1 :: catMatched compile text rest cid := by
  unfold catMatched
  rw [List.filter_cons, if_pos (by simp [h1, rowMatches, h2])]
  rw [List.map_cons]

/-- Matched-list closed form, cons case for a non-contributing row. -/
theorem catMatched_cons_skip (compile : String → Except Unit (String → Bool))
    (text : String) (row : Criteria × Category) (rest : List (Criteria × Category))
    (cid : ℕ)
    (h : row.2.id ≠ cid ∨ matchCriterion compile row.1.pattern text = false) :
    catMatched compile text (row :: rest) cid =
      catMatched compile text rest cid := by
  unfold catMatched
  rw [List.filter_cons, if_neg]
  rcases h with h | h <;> simp [rowMatches, h]

/-- Folding the scoring loop over further rows, when the category's entry
already exists: the score grows by the category's raw score over those
rows and the matched list by the category's matched rows, in order. -/
theorem scoreFold_some (compile : String → Except Unit (String → Bool))
    (text : String) (rows : List (Criteria × Category)) :
    ∀ (acc : List (ℕ × CategoryScore)) (cid : ℕ) (cs : CategoryScore),
      lookupScore acc cid = some cs →
      lookupScore (rows.foldl (scoreStep compile text) acc) cid =
        some ⟨cs.score + catRawScore compile text rows cid,
              cs.matchedCriteria ++ catMatched compile text rows cid,
              cs.category⟩ := by
  induction rows with
  | nil =>
    intro acc cid cs h
    simpa [catRawScore, catMatched] using h
  | cons row rest ih =>
    intro acc cid cs h
    rw [List.foldl_cons]
    by_cases hid : row.2.id = cid
    · have hstep := scoreStep_lookup_self_some compile text acc row cid cs hid h
      by_cases hm : matchCriterion compile row.1.pattern text = true
      · rw [if_pos hm] at hstep
        rw [ih _ _ _ hstep, catRawScore_cons_match compile text row rest cid hid hm,
          catMatched_cons_match compile text row rest cid hid hm]
        simp [add_assoc]
      · rw [if_neg hm] at hstep
        rw [ih _ _ _ hstep,
          catRawScore_cons_skip compile text row rest cid
            (Or.inr (Bool.not_eq_true _ ▸ hm)),
          catMatched_cons_skip compile text row rest cid
            (Or.inr (Bool.not_eq_true _ ▸ hm))]
    · have hstep := scoreStep_lookup_ne compile text acc row cid hid
      rw [ih _ _ _ (hstep.trans h),
        catRawScore_cons_skip compile text row rest cid (Or.inl hid),
        catMatched_cons_skip compile text row rest cid (Or.inl hid)]

/-- Folding the scoring loop over rows, when the category's entry does
not yet exist: the entry appears exactly when some row carries the
category, with the closed-form score and matched list, and the category
row of the first such occurrence. -/
theorem scoreFold_none (compile : String → Except Unit (String → Bool))
    (text : String) (rows : List (Criteria × Category)) :
    ∀ (acc : List (ℕ × CategoryScore)) (cid : ℕ),
      lookupScore acc cid = none →
      lookupScore (rows.foldl (scoreStep compile text) acc) cid =
        (rows.find? (fun row => row.2.id == cid)).map (fun row0 =>
          (⟨catRawScore compile text rows cid,
            catMatched compile text rows cid, row0.2⟩ : CategoryScore)) := by
  induction rows with
  | nil =>
    intro acc cid h
    simpa using h
  | cons row rest ih =>
    intro acc cid h
    rw [List.foldl_cons]
    by_cases hid : row.2.id = cid
    · have hfind : (row :: rest).find? (fun r => r.2.id == cid) = some row :=
        List.find?_cons_of_pos _ (by simp [hid])
      rw [hfind]
      have hstep := scoreStep_lookup_self_none compile text acc row cid hid h
      by_cases hm : matchCriterion compile row.1.pattern text = true
      · rw [if_pos hm] at hstep
        rw [scoreFold_some compile text rest _ _ _ hstep,
          catRawScore_cons_match compile text row rest cid hid hm,
          catMatched_cons_match compile text row rest cid hid hm]
        simp
      · rw [if_neg hm] at hstep
        rw [scoreFold_some compile text rest _ _ _ hstep,
          catRawScore_cons_skip compile text row rest cid
            (Or.inr (Bool.not_eq_true _ ▸ hm)),
          catMatched_cons_skip compile text row rest cid
            (Or.inr (Bool.not_eq_true _ ▸ hm))]
        simp
    · have hfind : (row :: rest).find? (fun r => r.2.id == cid) =
          rest.find? (fun r => r.2.id == cid) :=
        List.find?_cons_of_neg _ (by simp [hid])
      rw [hfind]
      have hstep := scoreStep_lookup_ne compile text acc row cid hid
      rw [ih _ _ (hstep.trans h),
        catRawScore_cons_skip compile text row rest cid (Or.inl hid),
        catMatched_cons_skip compile text row rest cid (Or.inl hid)]

/-- The `categoryScores` record built by the scoring loop, looked up at
any category id: present exactly when some retrieved row carries that
category, with the closed-form raw score and matched list. -/
theorem computeScores_lookup (compile : String → Except Unit (String → Bool))
    (text : String) (rows : List (Criteria × Category)) (cid : ℕ) :
    lookupScore (computeScores compile text rows) cid =
      (rows.find? (fun row => row.2.id == cid)).map (fun row0 =>
        (⟨catRawScore compile text rows cid,
          catMatched compile text rows cid, row0.2⟩ : CategoryScore)) :=
  scoreFold_none compile text rows [] cid rfl

/-- `initEntry` extends the record's key list by the row's category id
exactly when it is new. -/
theorem initEntry_fst (acc : List (ℕ × CategoryScore)) (row : Criteria × Category) :
    (initEntry acc row).map Prod.fst =
      if row.2.id ∈ acc.map Prod.fst then acc.map Prod.fst
      else acc.map Prod.fst ++ [row.2.id] := by
  by_cases h : row.2.id ∈ acc.map Prod.fst
  · rw [initEntry_of_mem _ _ h, if_pos h]
  · rw [initEntry_of_not_mem _ _ h, if_neg h]
    simp

/-- A scoring iteration does not change the record's keys beyond the
`initEntry` insertion. -/
theorem scoreStep_fst (compile : String → Except Unit (String → Bool))
    (text : String) (acc : List (ℕ × CategoryScore)) (row : Criteria × Category) :
    (scoreStep compile text acc row).map Prod.fst =
      (initEntry acc row).map Prod.fst := by
  unfold scoreStep
  split_ifs with h1
  · rw [List.map_map]
    exact List.map_congr_left (fun e _ => bumpEntry_fst _ _ e)
  · rfl

/-- The record's key list evolves as first-seen deduplication of the
rows' category ids. -/
theorem scoreFold_fst (compile : String → Except Unit (String → Bool))
    (text : String) (rows : List (Criteria × Category)) :
    ∀ acc : List (ℕ × CategoryScore),
      ((rows.foldl (scoreStep compile text) acc).map Prod.fst) =
        rows.foldl (fun ks row => if row.2.id ∈ ks then ks else ks ++ [row.2.id])
          (acc.map Prod.fst) := by
  induction rows with
  | nil => intro _; rfl
  | cons row rest ih =>
    intro acc
    rw [List.foldl_cons, List.foldl_cons, ih, scoreStep_fst, initEntry_fst]

/-- The keys of the built record are exactly `keysOf` the rows. -/
theorem computeScores_fst (compile : String → Except Unit (String → Bool))
    (text : String) (rows : List (Criteria × Category)) :
    (computeScores compile text rows).map Prod.fst = keysOf rows := by
  unfold computeScores keysOf
  rw [scoreFold_fst]
  rfl

/-- Membership in the first-seen deduplication fold. -/
theorem dedupFold_mem (rows : List (Criteria × Category)) :
    ∀ (ks : List ℕ) (cid : ℕ),
      (cid ∈ rows.foldl
          (fun ks row => if row.2.id ∈ ks then ks else ks ++ [row.2.id]) ks ↔
        cid ∈ ks ∨ ∃ row ∈ rows, row.2.id = cid) := by
  induction rows with
  | nil =>
    intro ks cid
    simp
  | cons row rest ih =>
    intro ks cid
    rw [List.foldl_cons]
    by_cases h : row.2.id ∈ ks
    · rw [if_pos h, ih]
      constructor
      · rintro (hk | ⟨r, hr, hrc⟩)
        · exact Or.inl hk
        · exact Or.inr ⟨r, List.mem_cons_of_mem _ hr, hrc⟩
      · rintro (hk | ⟨r, hr, hrc⟩)
        · exact Or.inl hk
        · rcases List.mem_cons.mp hr with rfl | hr'
          · exact Or.inl (hrc ▸ h)
          · exact Or.inr ⟨r, hr', hrc⟩
    · rw [if_neg h, ih]
      constructor
      · rintro (hk | ⟨r, hr, hrc⟩)
        · rcases List.mem_append.mp hk with hk' | hk'
          · exact Or.inl hk'
          · exact Or.inr ⟨row, List.mem_cons_self _ _,
              (List.mem_singleton.mp hk').symm⟩
        · exact Or.inr ⟨r, List.mem_cons_of_mem _ hr, hrc⟩
      · rintro (hk | ⟨r, hr, hrc⟩)
        · exact Or.inl (List.mem_append.mpr (Or.inl hk))
        · rcases List.mem_cons.mp hr with rfl | hr'
          · exact Or.inl (List.mem_append.mpr
              (Or.inr (List.mem_singleton.mpr hrc.symm)))
          · exact Or.inr ⟨r, hr', hrc⟩

/-- The first-seen deduplication fold preserves distinctness. -/
theorem dedupFold_nodup (rows : List (Criteria × Category)) :
    ∀ ks : List ℕ, ks.Nodup →
      (rows.foldl
        (fun ks row => if row.2.id ∈ ks then ks else ks ++ [row.2.id]) ks).Nodup := by
  induction rows with
  | nil =>
    intro ks h
    exact h
  | cons row rest ih =>
    intro ks h
    rw [List.foldl_cons]
    by_cases hm : row.2.id ∈ ks
    · rw [if_pos hm]
      exact ih ks h
    · rw [if_neg hm]
      apply ih
      rw [List.nodup_append]
      exact ⟨h, List.nodup_singleton _, List.disjoint_singleton.mpr hm⟩

/-- A category id is a key of the record iff some row carries it. -/
theorem keysOf_mem (rows : List (Criteria × Category)) (cid : ℕ) :
    cid ∈ keysOf rows ↔ ∃ row ∈ rows, row.2.id = cid := by
  unfold keysOf
  rw [dedupFold_mem]
  simp

/-- The record's keys are distinct. -/
theorem keysOf_nodup (rows : List (Criteria × Category)) : (keysOf rows).Nodup :=
  dedupFold_nodup rows [] List.nodup_nil

theorem computeScores_keys_nodup (compile : String → Except Unit (String → Bool))
    (text : String) (rows : List (Criteria × Category)) :
    ((computeScores compile text rows).map Prod.fst).Nodup := by
  rw [computeScores_fst]
  exact keysOf_nodup rows

/-- In an association list with distinct keys, searching for a member's
key finds that member. -/
theorem find?_eq_of_mem_nodup_keys {β : Type} (m : List (ℕ × β)) (e : ℕ × β)
    (hn : (m.map Prod.fst).Nodup) (he : e ∈ m) :
    m.find? (fun x => x.1 == e.1) = some e := by
  induction m with
  | nil => cases he
  | cons a t ih =>
    simp only [List.map_cons, List.nodup_cons] at hn
    obtain ⟨hna, hnt⟩ := hn
    rcases List.mem_cons.mp he with rfl | het
    · exact List.find?_cons_of_pos _ (by simp)
    · have hne : a.1 ≠ e.1 := by
        intro hk
        exact hna (hk ▸ List.mem_map_of_mem Prod.fst het)
      rw [List.find?_cons_of_neg _ (by simp [hne])]
      exact ih hnt het

theorem selectGo_cons (b : Option ℕ) (s : ℚ) (e : ℕ × CategoryScore)
    (l : List (ℕ × CategoryScore)) :
    selectGo (b, s) (e :: l) =
      selectGo (if e.2.score > s then (some e.1, e.2.score) else (b, s)) l := rfl

theorem maxScoreFrom_cons (s : ℚ) (e : ℕ × CategoryScore)
    (l : List (ℕ × CategoryScore)) :
    maxScoreFrom s (e :: l) = maxScoreFrom (max s e.2.score) l := rfl

/-- The running maximum never drops below its initial value. -/
theorem le_maxScoreFrom (l : List (ℕ × CategoryScore)) :
    ∀ s : ℚ, s ≤ maxScoreFrom s l := by
  induction l with
  | nil => intro s; exact le_refl s
  | cons e t ih =>
    intro s
    rw [maxScoreFrom_cons]
    exact le_trans (le_max_left _ _) (ih _)

/-- Every entry's score is bounded by the running maximum. -/
theorem maxScoreFrom_mem_le (l : List (ℕ × CategoryScore)) :
    ∀ (s : ℚ), ∀ e ∈ l, e.2.score ≤ maxScoreFrom s l := by
  induction l with
  | nil => intro s e he; cases he
  | cons a t ih =>
    intro s e he
    rw [maxScoreFrom_cons]
    rcases List.mem_cons.mp he with rfl | het
    · exact le_trans (le_max_right _ _) (le_maxScoreFrom _ _)
    · exact ih _ e het

/-- The running maximum is the initial value or some entry's score. -/
theorem maxScoreFrom_cases (l : List (ℕ × CategoryScore)) :
    ∀ s : ℚ, maxScoreFrom s l = s ∨ ∃ e ∈ l, maxScoreFrom s l = e.2.score := by
  induction l with
  | nil => intro s; exact Or.inl rfl
  | cons a t ih =>
    intro s
    rw [maxScoreFrom_cons]
    by_cases hc : a.2.score ≤ s
    · rw [max_eq_left hc]
      rcases ih s with h | ⟨e, he, hee⟩
      · exact Or.inl h
      · exact Or.inr ⟨e, List.mem_cons_of_mem _ he, hee⟩
    · rw [max_eq_right (le_of_not_le hc)]
      rcases ih a.2.score with h | ⟨e, he, hee⟩
      · exact Or.inr ⟨a, List.mem_cons_self _ _, h⟩
      · exact Or.inr ⟨e, List.mem_cons_of_mem _ he, hee⟩

/-- If no entry exceeds the initial value the running maximum stays put. -/
theorem maxScoreFrom_of_all_le (l : List (ℕ × CategoryScore)) :
    ∀ s : ℚ, (∀ e ∈ l, e.2.score ≤ s) → maxScoreFrom s l = s := by
  induction l with
  | nil => intro s _; rfl
  | cons a t ih =>
    intro s h
    rw [maxScoreFrom_cons, max_eq_left (h a (List.mem_cons_self _ _))]
    exact ih s (fun e he => h e (List.mem_cons_of_mem _ he))

/-- `bestScore` after the selection loop is the running maximum. -/
theorem selectGo_snd (l : List (ℕ × CategoryScore)) :
    ∀ (b : Option ℕ) (s : ℚ), (selectGo (b, s) l).2 = maxScoreFrom s l := by
  induction l with
  | nil => intro b s; rfl
  | cons e t ih =>
    intro b s
    rw [selectGo_cons, maxScoreFrom_cons]
    by_cases hc : e.2.score > s
    · rw [if_pos hc, ih, max_eq_right (le_of_lt hc)]
    · rw [if_neg hc, ih, max_eq_left (le_of_not_lt hc)]

/-- When no entry beats the accumulator, the selection loop keeps it. -/
theorem selectGo_const (l : List (ℕ × CategoryScore)) :
    ∀ (b : Option ℕ) (s : ℚ), (∀ e ∈ l, e.2.score ≤ s) →
      selectGo (b, s) l = (b, s) := by
  induction l with
  | nil => intro b s _; rfl
  | cons e t ih =>
    intro b s h
    rw [selectGo_cons, if_neg (not_lt.mpr (h e (List.mem_cons_self _ _)))]
    exact ih b s (fun x hx => h x (List.mem_cons_of_mem _ hx))

/-- When some entry beats the accumulator, the loop ends at the first
entry attaining the running maximum (first-seen maximum of the scan). -/
theorem selectGo_spec (l : List (ℕ × CategoryScore)) :
    ∀ (b : Option ℕ) (s : ℚ), (∃ e ∈ l, s < e.2.score) →
      selectGo (b, s) l =
        ((l.find? (fun e => decide (maxScoreFrom s l ≤ e.2.score))).map Prod.fst,
         maxScoreFrom s l) := by
  induction l with
  | nil =>
    rintro b s ⟨e, he, _⟩
    cases he
  | cons a t ih =>
    rintro b s ⟨e0, he0, hs0⟩
    rw [selectGo_cons, maxScoreFrom_cons]
    by_cases hc : s < a.2.score
    · rw [if_pos hc, max_eq_right (le_of_lt hc)]
      by_cases hall : ∀ e ∈ t, e.2.score ≤ a.2.score
      · rw [selectGo_const t _ _ hall, maxScoreFrom_of_all_le t _ hall,
          List.find?_cons_of_pos _ (by simp)]
        rfl
      · push_neg at hall
        obtain ⟨e1, he1, hs1⟩ := hall
        rw [ih _ _ ⟨e1, he1, hs1⟩]
        have hM : a.2.score < maxScoreFrom a.2.score t :=
          lt_of_lt_of_le hs1 (maxScoreFrom_mem_le t _ e1 he1)
        rw [List.find?_cons_of_neg _ (by simp [not_le.mpr hM])]
    · rw [if_neg hc, max_eq_left (le_of_not_lt hc)]
      have he0t : e0 ∈ t := by
        rcases List.mem_cons.mp he0 with rfl | h
        · exact absurd hs0 hc
        · exact h
      rw [ih b s ⟨e0, he0t, hs0⟩]
      have hM : s < maxScoreFrom s t :=
        lt_of_lt_of_le hs0 (maxScoreFrom_mem_le t s e0 he0t)
      have hMa : ¬ (maxScoreFrom s t ≤ a.2.score) :=
        not_le.mpr (lt_of_le_of_lt (le_of_not_lt hc) hM)
      rw [List.find?_cons_of_neg _ (by simp [hMa])]

theorem maxScore_nonneg (entries : List (ℕ × CategoryScore)) :
    0 ≤ maxScore entries :=
  le_maxScoreFrom entries 0

theorem maxScore_mem_le (entries : List (ℕ × CategoryScore))
    (e : ℕ × CategoryScore) (he : e ∈ entries) : e.2.score ≤ maxScore entries :=
  maxScoreFrom_mem_le entries 0 e he

theorem maxScore_cases (entries : List (ℕ × CategoryScore)) :
    maxScore entries = 0 ∨ ∃ e ∈ entries, maxScore entries = e.2.score :=
  maxScoreFrom_cases entries 0

/-- `selectLoop` when every score is non-positive: `(null, 0)`. -/
theorem selectLoop_of_all_nonpos (entries : List (ℕ × CategoryScore))
    (h : ∀ e ∈ entries, e.2.score ≤ 0) : selectLoop entries = (none, 0) :=
  selectGo_const entries none 0 h

/-- `selectLoop` when some score is positive: the first entry (in scan
order) attaining the maximal score, with that score. -/
theorem selectLoop_of_pos (entries : List (ℕ × CategoryScore))
    (h : ∃ e ∈ entries, 0 < e.2.score) :
    selectLoop entries =
      ((entries.find? (fun e => decide (maxScore entries ≤ e.2.score))).map Prod.fst,
       maxScore entries) :=
  selectGo_spec entries none 0 h

/-- The maximal score only grows when the entry collection grows. -/
theorem maxScore_le_of_subset (l₁ l₂ : List (ℕ × CategoryScore))
    (h : ∀ e ∈ l₁, e ∈ l₂) : maxScore l₁ ≤ maxScore l₂ := by
  rcases maxScore_cases l₁ with h0 | ⟨e, he, hee⟩
  · rw [h0]
    exact maxScore_nonneg l₂
  · rw [hee]
    exact maxScore_mem_le l₂ e (h e he)

/-- The maximal score is invariant under permutation of the entries. -/
theorem maxScore_eq_of_perm (l₁ l₂ : List (ℕ × CategoryScore))
    (h : l₁.Perm l₂) : maxScore l₁ = maxScore l₂ :=
  le_antisymm
    (maxScore_le_of_subset l₁ l₂ (fun _ he => h.mem_iff.mp he))
    (maxScore_le_of_subset l₂ l₁ (fun _ he => h.mem_iff.mpr he))

instance : IsTotal (ℕ × CategoryScore) (fun a b => a.1 ≤ b.1) :=
  ⟨fun a b => Nat.le_total a.1 b.1⟩

instance : IsTrans (ℕ × CategoryScore) (fun a b => a.1 ≤ b.1) :=
  ⟨fun _ _ _ => Nat.le_trans⟩

/-- The ascending key enumeration is a permutation of the record. -/
theorem entriesAscending_perm (m : List (ℕ × CategoryScore)) :
    (entriesAscending m).Perm m :=
  List.perm_insertionSort _ m

/-- The ascending key enumeration is sorted by key. -/
theorem entriesAscending_sorted (m : List (ℕ × CategoryScore)) :
    List.Pairwise (fun a b => a.1 ≤ b.1) (entriesAscending m) :=
  List.sorted_insertionSort _ m

/-- In a key-sorted entry list, the entry `find?` returns has the least
key among all entries satisfying the predicate. -/
theorem find?_min_key_sorted (p : (ℕ × CategoryScore) → Bool) :
    ∀ (l : List (ℕ × CategoryScore)),
      List.Pairwise (fun a b => a.1 ≤ b.1) l →
      ∀ (e : ℕ × CategoryScore), l.find? p = some e →
      ∀ e' ∈ l, p e' = true → e.1 ≤ e'.1 := by
  intro l
  induction l with
  | nil =>
    intro _ e hf
    cases hf
  | cons a t ih =>
    intro hs e hf
    rw [List.pairwise_cons] at hs
    obtain ⟨ha, ht⟩ := hs
    by_cases hpa : p a = true
    · rw [List.find?_cons_of_pos _ hpa] at hf
      rw [Option.some_inj] at hf
      subst hf
      intro e' he' _
      rcases List.mem_cons.mp he' with rfl | h'
      · exact le_refl _
      · exact ha e' h'
    · rw [List.find?_cons_of_neg _ hpa] at hf
      intro e' he' hpe'
      rcases List.mem_cons.mp he' with rfl | h'
      · exact absurd hpe' hpa
      · exact ih ht e hf e' h' hpe'

/-- Every joined row's criterion and category come from their tables and
agree on the foreign key. -/
theorem mem_fetch (st : DBState) (c : Criteria) (cat : Category)
    (h : (c, cat) ∈ fetchCriteriaWithCategories st) :
    c ∈ st.criteria ∧ cat ∈ st.categories ∧ cat.id = c.category_id := by
  unfold fetchCriteriaWithCategories at h
  rw [List.mem_filterMap] at h
  obtain ⟨c', hc', heq⟩ := h
  cases hfind : st.categories.find? (fun cat' => cat'.id == c'.category_id) with
  | none =>
    rw [hfind] at heq
    simp at heq
  | some cat' =>
    rw [hfind] at heq
    simp only [Option.map_some'] at heq
    rw [Option.some_inj] at heq
    injection heq with h1 h2
    subst h1
    subst h2
    refine ⟨hc', List.mem_of_find?_eq_some hfind, ?_⟩
    have hk := List.find?_some hfind
    simpa using hk

/-- The criteria of the joined rows form a sublist of the criteria table
(each criterion appears at most once, in table order). -/
theorem fetch_fst_sublist (st : DBState) :
    ((fetchCriteriaWithCategories st).map Prod.fst).Sublist st.criteria := by
  unfold fetchCriteriaWithCategories
  induction st.criteria with
  | nil => simp
  | cons c t ih =>
    rw [List.filterMap_cons]
    cases hf : st.categories.find? (fun cat => cat.id == c.category_id) with
    | none =>
      simp only [Option.map_none']
      exact ih.cons c
    | some cat =>
      simp only [Option.map_some', List.map_cons]
      exact ih.cons₂ c

/-- With non-negative weights every raw score is non-negative. -/
theorem catRawScore_nonneg (compile : String → Except Unit (String → Bool))
    (text : String) (rows : List (Criteria × Category)) (cid : ℕ)
    (hw : ∀ row ∈ rows, 0 ≤ row.1.weight) :
    0 ≤ catRawScore compile text rows cid := by
  unfold catRawScore
  apply List.sum_nonneg
  intro x hx
  rw [List.mem_map] at hx
  obtain ⟨row, hrow, hxe⟩ := hx
  exact hxe ▸ hw row (List.mem_of_mem_filter hrow)

/-- A category id carried by no row scores 0. -/
theorem catRawScore_eq_zero_of_no_row (compile : String → Except Unit (String → Bool))
    (text : String) (rows : List (Criteria × Category)) (cid : ℕ)
    (h : ∀ row ∈ rows, row.2.id ≠ cid) :
    catRawScore compile text rows cid = 0 := by
  unfold catRawScore
  have : rows.filter (fun row => row.2.id == cid &&
      rowMatches compile text row) = [] := by
    rw [List.filter_eq_nil_iff]
    intro row hrow
    simp [h row hrow]
  rw [this]
  rfl

/-- A category's raw score is the total weight of its matched list. -/
theorem catRawScore_eq_matched_sum (compile : String → Except Unit (String → Bool))
    (text : String) (rows : List (Criteria × Category)) (cid : ℕ) :
    catRawScore compile text rows cid =
      ((catMatched compile text rows cid).map (fun c => c.weight)).sum := by
  unfold catRawScore catMatched
  rw [List.map_map]
  rfl

/-- Every record entry holds the closed-form score and matched list of
its key, and the category row of the key's first occurrence. -/
theorem mem_computeScores_spec (compile : String → Except Unit (String → Bool))
    (text : String) (rows : List (Criteria × Category)) (e : ℕ × CategoryScore)
    (he : e ∈ computeScores compile text rows) :
    ∃ row0, rows.find? (fun r => r.2.id == e.1) = some row0 ∧
      e.2 = ⟨catRawScore compile text rows e.1,
             catMatched compile text rows e.1, row0.2⟩ := by
  have hl : lookupScore (computeScores compile text rows) e.1 = some e.2 := by
    unfold lookupScore
    rw [find?_eq_of_mem_nodup_keys _ e (computeScores_keys_nodup compile text rows) he]
    rfl
  rw [computeScores_lookup] at hl
  cases hf : rows.find? (fun r => r.2.id == e.1) with
  | none =>
    rw [hf] at hl
    simp at hl
  | some row0 =>
    rw [hf] at hl
    simp only [Option.map_some'] at hl
    rw [Option.some_inj] at hl
    exact ⟨row0, rfl, hl.symm⟩

theorem key_of_mem_computeScores (compile : String → Except Unit (String → Bool))
    (text : String) (rows : List (Criteria × Category)) (e : ℕ × CategoryScore)
    (he : e ∈ computeScores compile text rows) : e.1 ∈ keysOf rows := by
  rw [← computeScores_fst compile text rows]
  exact List.mem_map_of_mem Prod.fst he

theorem exists_mem_computeScores_of_key (compile : String → Except Unit (String → Bool))
    (text : String) (rows : List (Criteria × Category)) (cid : ℕ)
    (h : cid ∈ keysOf rows) :
    ∃ e ∈ computeScores compile text rows, e.1 = cid := by
  rw [← computeScores_fst compile text rows, List.mem_map] at h
  obtain ⟨e, he, hek⟩ := h
  exact ⟨e, he, hek⟩

/-- The weights of all joined rows are non-negative whenever the criteria
table's weights are. -/
theorem fetch_weight_nonneg (st : DBState)
    (hw : ∀ c ∈ st.criteria, 0 ≤ c.weight) :
    ∀ row ∈ fetchCriteriaWithCategories st, 0 ≤ row.1.weight := by
  intro row hrow
  have := mem_fetch st row.1 row.2 (by rwa [Prod.mk.eta])
  exact hw row.1 this.1

/-- Every key of the record built from the joined rows is the id of a
category row of the categories table. -/
theorem key_mem_categories (st : DBState) (cid : ℕ)
    (h : cid ∈ keysOf (fetchCriteriaWithCategories st)) :
    ∃ cat ∈ st.categories, cat.id = cid := by
  rw [keysOf_mem] at h
  obtain ⟨row, hrow, hid⟩ := h
  have := mem_fetch st row.1 row.2 (by rwa [Prod.mk.eta])
  exact ⟨row.2, this.2.1, hid⟩

/-- Branch 1 of the handler: unknown document id. -/
theorem classify_eq_docNotFound (compile : String → Except Unit (String → Bool))
    (docId : ℕ) (st : DBState)
    (hd : st.documents.find? (fun d => d.id == docId) = none) :
    classifyDocument compile docId st =
      (Except.error ClassifyError.documentNotFound, st) := by
  unfold classifyDocument
  rw [hd]

/-- Branch 2 of the handler: document with empty or absent content. -/
theorem classify_eq_noContent (compile : String → Except Unit (String → Bool))
    (docId : ℕ) (st : DBState) (d : Document)
    (hd : st.documents.find? (fun x => x.id == docId) = some d)
    (hm : d.content = none ∨ d.content = some "") :
    classifyDocument compile docId st =
      (Except.error ClassifyError.noContent, st) := by
  unfold classifyDocument
  rw [hd]
  simp only [if_pos hm]

/-- Branch 3 of the handler: no criteria configured. -/
theorem classify_eq_noCriteria (compile : String → Except Unit (String → Bool))
    (docId : ℕ) (st : DBState) (d : Document)
    (hd : st.documents.find? (fun x => x.id == docId) = some d)
    (hm : ¬ (d.content = none ∨ d.content = some ""))
    (hrows : fetchCriteriaWithCategories st = []) :
    classifyDocument compile docId st =
      (Except.error ClassifyError.noCriteria, st) := by
  unfold classifyDocument
  rw [hd]
  simp only [if_neg hm, hrows, List.isEmpty_nil, if_true]

/-- Branch 4 of the handler: criteria exist but every category's raw
score is 0, so the selection rejects. -/
theorem classify_eq_noMatch (compile : String → Except Unit (String → Bool))
    (docId : ℕ) (st : DBState) (d : Document)
    (hd : st.documents.find? (fun x => x.id == docId) = some d)
    (hm : ¬ (d.content = none ∨ d.content = some ""))
    (hrows : fetchCriteriaWithCategories st ≠ [])
    (hall : ∀ cid : ℕ,
      catRawScore compile (strToLower (d.content.getD ""))
        (fetchCriteriaWithCategories st) cid = 0) :
    classifyDocument compile docId st =
      (Except.error ClassifyError.noMatch, st) := by
  have hsel : selectLoop (entriesAscending (computeScores compile
      (strToLower (d.content.getD "")) (fetchCriteriaWithCategories st))) =
      (none, 0) := by
    apply selectLoop_of_all_nonpos
    intro e he
    have hem : e ∈ computeScores compile (strToLower (d.content.getD ""))
        (fetchCriteriaWithCategories st) :=
      (entriesAscending_perm _).mem_iff.mp he
    obtain ⟨row0, _, he2⟩ := mem_computeScores_spec _ _ _ _ hem
    rw [he2]
    exact le_of_eq (hall e.1)
  unfold classifyDocument
  rw [hd]
  simp only [if_neg hm,
    if_neg (fun hempty => hrows (List.isEmpty_iff.mp hempty)), hsel]

/-- Branch 5 of the handler: some category's raw score is positive, so
the call succeeds.  The winning category id maximizes the raw score, is
the least id among the maximizers (the ascending-key scan keeps the first
maximum), and the returned response and appended row are the closed-form
`winningResult`/`winningDetails`. -/
theorem classify_eq_ok (compile : String → Except Unit (String → Bool))
    (docId : ℕ) (st : DBState) (d : Document)
    (hw : ∀ c ∈ st.criteria, 0 ≤ c.weight)
    (hcat : ∀ cat ∈ st.categories, 0 < cat.id)
    (hd : st.documents.find? (fun x => x.id == docId) = some d)
    (hm : ¬ (d.content = none ∨ d.content = some ""))
    (hpos : ∃ cid : ℕ, 0 < catRawScore compile (docText d)
      (fetchCriteriaWithCategories st) cid) :
    ∃ cid row0,
      (fetchCriteriaWithCategories st).find? (fun r => r.2.id == cid) = some row0 ∧
      0 < catRawScore compile (docText d) (fetchCriteriaWithCategories st) cid ∧
      (∀ cid' : ℕ,
        catRawScore compile (docText d) (fetchCriteriaWithCategories st) cid' ≤
          catRawScore compile (docText d) (fetchCriteriaWithCategories st) cid) ∧
      (∀ cid' ∈ keysOf (fetchCriteriaWithCategories st),
        catRawScore compile (docText d) (fetchCriteriaWithCategories st) cid' =
          catRawScore compile (docText d) (fetchCriteriaWithCategories st) cid →
        cid ≤ cid') ∧
      classifyDocument compile docId st =
        (Except.ok
          { document := d
            result := winningResult compile docId st (docText d)
              (fetchCriteriaWithCategories st) cid
            category := row0.2
            matched_criteria_details := winningDetails compile st (docText d)
              (fetchCriteriaWithCategories st) cid },
         { st with results := st.results ++
            [winningResult compile docId st (docText d)
              (fetchCriteriaWithCategories st) cid] }) := by
  obtain ⟨cid0, hcid0⟩ := hpos
  have hwrows := fetch_weight_nonneg st hw
  -- the positive-score category is a key of the record
  have hkey0 : cid0 ∈ keysOf (fetchCriteriaWithCategories st) := by
    by_contra hk
    rw [keysOf_mem] at hk
    push_neg at hk
    rw [catRawScore_eq_zero_of_no_row compile (docText d)
      (fetchCriteriaWithCategories st) cid0 hk] at hcid0
    exact lt_irrefl 0 hcid0
  obtain ⟨e0, he0m, he0k⟩ := exists_mem_computeScores_of_key compile (docText d)
    (fetchCriteriaWithCategories st) cid0 hkey0
  obtain ⟨row00, _, he02⟩ := mem_computeScores_spec compile (docText d)
    (fetchCriteriaWithCategories st) e0 he0m
  have he0score : 0 < e0.2.score := by
    rw [he02, he0k]
    exact hcid0
  have he0s : e0 ∈ entriesAscending (computeScores compile (docText d)
      (fetchCriteriaWithCategories st)) :=
    (entriesAscending_perm _).mem_iff.mpr he0m
  -- run the selection loop
  have hsel := selectLoop_of_pos _ ⟨e0, he0s, he0score⟩
  -- the scan's maximum is attained, so find? succeeds
  have hMpos : 0 < maxScore (entriesAscending (computeScores compile (docText d)
      (fetchCriteriaWithCategories st))) :=
    lt_of_lt_of_le he0score (maxScore_mem_le _ e0 he0s)
  obtain ⟨e1, he1s, he1M⟩ : ∃ e1 ∈ entriesAscending (computeScores compile (docText d)
      (fetchCriteriaWithCategories st)),
      maxScore (entriesAscending (computeScores compile (docText d)
        (fetchCriteriaWithCategories st))) = e1.2.score := by
    rcases maxScore_cases (entriesAscending (computeScores compile (docText d)
      (fetchCriteriaWithCategories st))) with h0 | h1
    · rw [h0] at hMpos
      exact absurd hMpos (lt_irrefl 0)
    · exact h1
  obtain ⟨ef, hfind⟩ : ∃ ef, (entriesAscending (computeScores compile (docText d)
      (fetchCriteriaWithCategories st))).find?
        (fun e => decide (maxScore (entriesAscending (computeScores compile (docText d)
          (fetchCriteriaWithCategories st))) ≤ e.2.score)) = some ef := by
    rw [← Option.isSome_iff_exists, List.find?_isSome]
    exact ⟨e1, he1s, decide_eq_true (le_of_eq he1M)⟩
  have hefs : ef ∈ entriesAscending (computeScores compile (docText d)
      (fetchCriteriaWithCategories st)) := List.mem_of_find?_eq_some hfind
  have hefm : ef ∈ computeScores compile (docText d)
      (fetchCriteriaWithCategories st) := (entriesAscending_perm _).mem_iff.mp hefs
  have hefM : ef.2.score = maxScore (entriesAscending (computeScores compile (docText d)
      (fetchCriteriaWithCategories st))) := by
    have h1 := List.find?_some hfind
    rw [decide_eq_true_eq] at h1
    exact le_antisymm (maxScore_mem_le _ ef hefs) h1
  obtain ⟨row0, hrow0, hef2⟩ := mem_computeScores_spec compile (docText d)
    (fetchCriteriaWithCategories st) ef hefm
  have hefscore : ef.2.score = catRawScore compile (docText d)
      (fetchCriteriaWithCategories st) ef.1 := by
    rw [hef2]
  -- the winner's raw score is positive
  have hwinpos : 0 < catRawScore compile (docText d)
      (fetchCriteriaWithCategories st) ef.1 := by
    rw [← hefscore, hefM]
    exact hMpos
  -- the winner's id is a positive category id
  have hefkey : ef.1 ∈ keysOf (fetchCriteriaWithCategories st) :=
    key_of_mem_computeScores compile (docText d) (fetchCriteriaWithCategories st) ef hefm
  have hefpos : 0 < ef.1 := by
    obtain ⟨cat, hcatm, hcid⟩ := key_mem_categories st ef.1 hefkey
    exact hcid ▸ hcat cat hcatm
  refine ⟨ef.1, row0, hrow0, hwinpos, ?_, ?_, ?_⟩
  · -- maximality over all category ids
    intro cid'
    by_cases hk : cid' ∈ keysOf (fetchCriteriaWithCategories st)
    · obtain ⟨e', he'm, he'k⟩ := exists_mem_computeScores_of_key compile (docText d)
        (fetchCriteriaWithCategories st) cid' hk
      obtain ⟨row', _, he'2⟩ := mem_computeScores_spec compile (docText d)
        (fetchCriteriaWithCategories st) e' he'm
      have : e'.2.score = catRawScore compile (docText d)
          (fetchCriteriaWithCategories st) cid' := by
        rw [he'2, he'k]
      rw [← this, ← hefscore, hefM]
      exact maxScore_mem_le _ e' ((entriesAscending_perm _).mem_iff.mpr he'm)
    · rw [keysOf_mem] at hk
      push_neg at hk
      rw [catRawScore_eq_zero_of_no_row compile (docText d)
        (fetchCriteriaWithCategories st) cid' hk]
      exact le_of_lt hwinpos
  · -- minimality among the maximizers (first-seen maximum, ascending keys)
    intro cid' hk' heq
    obtain ⟨e', he'm, he'k⟩ := exists_mem_computeScores_of_key compile (docText d)
      (fetchCriteriaWithCategories st) cid' hk'
    obtain ⟨row', _, he'2⟩ := mem_computeScores_spec compile (docText d)
      (fetchCriteriaWithCategories st) e' he'm
    have he'score : e'.2.score = catRawScore compile (docText d)
        (fetchCriteriaWithCategories st) cid' := by
      rw [he'2, he'k]
    have hpred : (fun e : ℕ × CategoryScore =>
        decide (maxScore (entriesAscending (computeScores compile (docText d)
          (fetchCriteriaWithCategories st))) ≤ e.2.score)) e' = true := by
      apply decide_eq_true
      rw [he'score, heq, ← hefscore, hefM]
    have := find?_min_key_sorted _ _ (entriesAscending_sorted _) ef hfind e'
      ((entriesAscending_perm _).mem_iff.mpr he'm) hpred
    exact he'k ▸ this
  · -- the handler's computation
    have hrows : fetchCriteriaWithCategories st ≠ [] := by
      intro h0
      rw [keysOf_mem, h0] at hkey0
      obtain ⟨row, hrow, _⟩ := hkey0
      cases hrow
    have hguard : ¬ (ef.1 = 0 ∨ (maxScore (entriesAscending (computeScores compile
        (docText d) (fetchCriteriaWithCategories st)))) = 0) := by
      rintro (h0 | h0)
      · rw [h0] at hefpos
        exact lt_irrefl 0 hefpos
      · rw [h0] at hMpos
        exact lt_irrefl 0 hMpos
    have hfind2 : (computeScores compile (docText d)
        (fetchCriteriaWithCategories st)).find? (fun e => e.1 == ef.1) = some ef :=
      find?_eq_of_mem_nodup_keys _ ef (computeScores_keys_nodup _ _ _) hefm
    unfold classifyDocument
    rw [hd]
    simp only [if_neg hm,
      if_neg (fun hempty => hrows (List.isEmpty_iff.mp hempty))]
    rw [docText_eq d, hsel, hfind]
    simp only [Option.map_some']
    rw [if_neg hguard, hfind2]
    simp only [winningResult, winningDetails]
    rw [hef2, ← hefscore, hefM]

/-- A raw score that is not 0 is positive when weights are non-negative. -/
theorem catRawScore_pos_of_ne (compile : String → Except Unit (String → Bool))
    (text : String) (rows : List (Criteria × Category)) (cid : ℕ)
    (hw : ∀ row ∈ rows, 0 ≤ row.1.weight)
    (h : catRawScore compile text rows cid ≠ 0) :
    0 < catRawScore compile text rows cid :=
  lt_of_le_of_ne (catRawScore_nonneg compile text rows cid hw) (Ne.symm h)

/-- Inversion of a successful run: the handler's result determines the
document, a winning category id with first-seen-maximum properties, and
the exact response and state. -/
theorem classify_ok_inv (compile : String → Except Unit (String → Bool))
    (docId : ℕ) (st : DBState) (resp : ClassificationResponse) (st₂ : DBState)
    (hw : ∀ c ∈ st.criteria, 0 ≤ c.weight)
    (hcat : ∀ cat ∈ st.categories, 0 < cat.id)
    (h : classifyDocument compile docId st = (Except.ok resp, st₂)) :
    ∃ d cid row0,
      st.documents.find? (fun x => x.id == docId) = some d ∧
      (fetchCriteriaWithCategories st).find? (fun r => r.2.id == cid) = some row0 ∧
      0 < catRawScore compile (docText d) (fetchCriteriaWithCategories st) cid ∧
      (∀ cid' : ℕ,
        catRawScore compile (docText d) (fetchCriteriaWithCategories st) cid' ≤
          catRawScore compile (docText d) (fetchCriteriaWithCategories st) cid) ∧
      (∀ cid' ∈ keysOf (fetchCriteriaWithCategories st),
        catRawScore compile (docText d) (fetchCriteriaWithCategories st) cid' =
          catRawScore compile (docText d) (fetchCriteriaWithCategories st) cid →
        cid ≤ cid') ∧
      resp =
        { document := d
          result := winningResult compile docId st (docText d)
            (fetchCriteriaWithCategories st) cid
          category := row0.2
          matched_criteria_details := winningDetails compile st (docText d)
            (fetchCriteriaWithCategories st) cid } ∧
      st₂ = { st with results := st.results ++
        [winningResult compile docId st (docText d)
          (fetchCriteriaWithCategories st) cid] } := by
  cases hd : st.documents.find? (fun x => x.id == docId) with
  | none =>
    rw [classify_eq_docNotFound compile docId st hd] at h
    simp at h
  | some d =>
    by_cases hm : d.content = none ∨ d.content = some ""
    · rw [classify_eq_noContent compile docId st d hd hm] at h
      simp at h
    · by_cases hrows : fetchCriteriaWithCategories st = []
      · rw [classify_eq_noCriteria compile docId st d hd hm hrows] at h
        simp at h
      · by_cases hall : ∀ cid : ℕ,
            catRawScore compile (docText d) (fetchCriteriaWithCategories st) cid = 0
        · rw [classify_eq_noMatch compile docId st d hd hm hrows hall] at h
          simp at h
        · push_neg at hall
          obtain ⟨cid0, hne⟩ := hall
          obtain ⟨cid, row0, hrow0, hpos', hmax, hmin, heq⟩ :=
            classify_eq_ok compile docId st d hw hcat hd hm
              ⟨cid0, catRawScore_pos_of_ne compile (docText d)
                (fetchCriteriaWithCategories st) cid0
                (fetch_weight_nonneg st hw) hne⟩
          rw [heq] at h
          rw [Prod.mk.injEq] at h
          obtain ⟨h1, h2⟩ := h
          rw [Except.ok.injEq] at h1
          exact ⟨d, cid, row0, rfl, hrow0, hpos', hmax, hmin, h1.symm, h2.symm⟩

/-- C4: for every raw score with precondition `rawScore > 0`, the
Confidence Mapper (lines 96–104 of the handler) yields `high` when
`rawScore ≥ 2.0`, `medium` when `1.0 ≤ rawScore < 2.0`, and `low` when
`0 < rawScore < 1.0`. -/
theorem claim_C4 (rawScore : ℚ) (_h : 0 < rawScore) :
    (2 ≤ rawScore → confidenceLevelOf rawScore = ConfidenceLevel.high) ∧
    (1 ≤ rawScore ∧ rawScore < 2 → confidenceLevelOf rawScore = ConfidenceLevel.medium) ∧
    (0 < rawScore ∧ rawScore < 1 → confidenceLevelOf rawScore = ConfidenceLevel.low) := by
  unfold confidenceLevelOf
  refine ⟨fun h2 => ?_, fun ⟨h1, h2⟩ => ?_, fun ⟨_, h1⟩ => ?_⟩
  · rw [if_pos h2]
  · rw [if_neg (not_le.mpr h2), if_pos h1]
  · rw [if_neg (not_le.mpr (lt_trans h1 (by norm_num))),
      if_neg (not_le.mpr h1)]

/-- C4 witness: the mapper evaluated at the concrete scores 3, 3/2 and
1/2 of the three bands. -/
theorem claim_C4_witness :
    confidenceLevelOf 3 = ConfidenceLevel.high ∧
    confidenceLevelOf (3 / 2) = ConfidenceLevel.medium ∧
    confidenceLevelOf (1 / 2) = ConfidenceLevel.low :=
  ⟨(claim_C4 3 (by norm_num)).1 (by norm_num),
   (claim_C4 (3 / 2) (by norm_num)).2.1 (by norm_num),
   (claim_C4 (1 / 2) (by norm_num)).2.2 (by norm_num)⟩

/-- C5: for every `rawScore > 0` the normalization (line 107) equals
`min(rawScore / 3.0, 1.0)`, is monotone non-decreasing, and never exceeds
1; the divisor 3 is a fixed constant (the function takes no criteria). -/
theorem claim_C5 (rawScore other : ℚ) (_h : 0 < rawScore) :
    normalizedScoreOf rawScore = ratMin (rawScore / 3) 1 ∧
    (rawScore ≤ other → normalizedScoreOf rawScore ≤ normalizedScoreOf other) ∧
    normalizedScoreOf rawScore ≤ 1 := by
  refine ⟨rfl, fun hle => ?_, ?_⟩
  · unfold normalizedScoreOf ratMin
    split_ifs with h1 h2 <;> linarith
  · unfold normalizedScoreOf ratMin
    split_ifs with h1
    · exact h1
    · exact le_refl 1

/-- C5 witness: normalization evaluated at 2 and 6: `2/3` (inside the cap)
and `1` (capped), with monotonicity 2 ≤ 6 instantiated. -/
theorem claim_C5_witness :
    normalizedScoreOf 2 ≤ normalizedScoreOf 6 ∧
    normalizedScoreOf 2 = 2 / 3 ∧ normalizedScoreOf 6 = 1 ∧
    normalizedScoreOf 2 ≤ 1 :=
  ⟨(claim_C5 2 6 (by norm_num)).2.1 (by norm_num),
   by norm_num [normalizedScoreOf, ratMin],
   by norm_num [normalizedScoreOf, ratMin],
   (claim_C5 2 6 (by norm_num)).2.2⟩

/-- C6: the per-criterion match test (lines 57–66) is total — it returns
a Boolean for every pattern and text, the compilation failure being
caught and never propagated: when the pattern compiles, the result is the
regex test on the (lower-cased) text; when compilation fails, the result
is literal substring containment of the lower-cased pattern.  Stability
across repeated evaluations holds because the test is a pure function of
the pattern and text alone. -/
theorem claim_C6 (compile : String → Except Unit (String → Bool))
    (pat text : String) :
    (matchCriterion compile pat text = true ∨
      matchCriterion compile pat text = false) ∧
    (∀ test, compile pat = Except.ok test →
      matchCriterion compile pat text = test text) ∧
    (∀ err : Unit, compile pat = Except.error err →
      matchCriterion compile pat text = strIncludes text (strToLower pat)) := by
  refine ⟨?_, fun test htest => ?_, fun err herr => ?_⟩
  · cases matchCriterion compile pat text
    · exact Or.inr rfl
    · exact Or.inl rfl
  · unfold matchCriterion
    rw [htest]
  · unfold matchCriterion
    rw [herr]

/-- C6 witness: the spec's own scenario — the malformed pattern
`"[unclosed bracket"` fails to compile, degrades to substring search and
matches a text containing it literally, raising nothing. -/
theorem claim_C6_witness :
    matchCriterion jsCompile "[unclosed bracket" "has [unclosed bracket inside" = true := by
  rw [(claim_C6 jsCompile "[unclosed bracket" "has [unclosed bracket inside").2.2 () rfl]
  decide

/-- C2: the Scorer (lines 41–77): every entry of the `categoryScores`
record holds, for its category, the sum of the weights of exactly the
rows of that category whose match test succeeds against the (lower-cased)
text, accumulated independently per category, and the matched list holds
exactly those criteria in input-sequence order. -/
theorem claim_C2 (compile : String → Except Unit (String → Bool))
    (text : String) (rows : List (Criteria × Category)) (cid : ℕ)
    (cs : CategoryScore)
    (h : lookupScore (computeScores compile text rows) cid = some cs) :
    cs.score = ((rows.filter (fun row => row.2.id == cid &&
        rowMatches compile text row)).map (fun row => row.1.weight)).sum ∧
    cs.matchedCriteria = (rows.filter (fun row => row.2.id == cid &&
        rowMatches compile text row)).map (fun row => row.1) := by
  rw [computeScores_lookup] at h
  cases hf : rows.find? (fun r => r.2.id == cid) with
  | none =>
    rw [hf] at h
    simp at h
  | some row0 =>
    rw [hf] at h
    simp only [Option.map_some'] at h
    rw [Option.some_inj] at h
    rw [← h]
    exact ⟨rfl, rfl⟩

/-- C2 witness: two categories scored simultaneously from one document —
the record's entry for category 1, evaluated concretely. -/
theorem claim_C2_witness :
    (⟨1, [⟨2, 1, "critA", "next", 1⟩], ⟨1, "A", "#111111", none⟩⟩ : CategoryScore).score =
      (([((⟨1, 2, "critB", "next", (1 : ℚ)⟩ : Criteria),
          (⟨2, "B", "#222222", none⟩ : Category)),
         ((⟨2, 1, "critA", "next", (1 : ℚ)⟩ : Criteria),
          (⟨1, "A", "#111111", none⟩ : Category))].filter
        (fun row => row.2.id == 1 && rowMatches jsCompile "go next" row)).map
          (fun row => row.1.weight)).sum ∧
     (⟨1, [⟨2, 1, "critA", "next", 1⟩], ⟨1, "A", "#111111", none⟩⟩ : CategoryScore).matchedCriteria =
      (([((⟨1, 2, "critB", "next", (1 : ℚ)⟩ : Criteria),
          (⟨2, "B", "#222222", none⟩ : Category)),
         ((⟨2, 1, "critA", "next", (1 : ℚ)⟩ : Criteria),
          (⟨1, "A", "#111111", none⟩ : Category))].filter
        (fun row => row.2.id == 1 && rowMatches jsCompile "go next" row)).map
          (fun row => row.1)) :=
  claim_C2 jsCompile "go next"
    [((⟨1, 2, "critB", "next", (1 : ℚ)⟩ : Criteria),
      (⟨2, "B", "#222222", none⟩ : Category)),
     ((⟨2, 1, "critA", "next", (1 : ℚ)⟩ : Criteria),
      (⟨1, "A", "#111111", none⟩ : Category))] 1
    ⟨1, [⟨2, 1, "critA", "next", 1⟩], ⟨1, "A", "#111111", none⟩⟩
    (by norm_num +decide [lookupScore, computeScores, scoreStep, initEntry, bumpEntry,
      matchCriterion, jsCompile, plainChar, strToLower, strIncludes, listIncludes,
      List.foldl, List.find?, List.any])

/-- C9: a matching pattern does not prevent `NoMatchError` — a state
whose only criterion matches the document but has weight 0 still fails
with `NoMatchError`, so the error signals a zero total weighted score,
not the absence of a pattern match. -/
theorem claim_C9 :
    ∃ (st : DBState) (docId : ℕ) (d : Document),
      st.documents.find? (fun x => x.id == docId) = some d ∧
      fetchCriteriaWithCategories st ≠ [] ∧
      (∃ row ∈ fetchCriteriaWithCategories st,
        matchCriterion jsCompile row.1.pattern (docText d) = true ∧
        row.1.weight = 0) ∧
      (classifyDocument jsCompile docId st).1 =
        Except.error ClassifyError.noMatch := by
  refine ⟨{ documents := [⟨1, "d.txt", FileType.txt, 10, some "zero weight"⟩]
            categories := [⟨1, "A", "#111111", none⟩]
            criteria := [⟨1, 1, "zeroCrit", "zero", (0 : ℚ)⟩]
            results := [] }, 1,
    ⟨1, "d.txt", FileType.txt, 10, some "zero weight"⟩, rfl, by decide,
    ⟨(⟨1, 1, "zeroCrit", "zero", (0 : ℚ)⟩, ⟨1, "A", "#111111", none⟩),
      by decide, by decide, by decide⟩, ?_⟩
  norm_num +decide [classifyDocument, fetchCriteriaWithCategories, computeScores,
    scoreStep, initEntry, bumpEntry, matchCriterion, jsCompile, plainChar, strToLower,
    strIncludes, listIncludes, entriesAscending, selectLoop, selectGo,
    List.insertionSort, List.orderedInsert, List.find?, List.foldl, List.filterMap,
    List.any, List.isEmpty]

/-- C3 counterexample: two categories tie at score 1, first encountered
in the order 2, 1 while evaluating the retrieved criteria.  The claim's
Selector (first-seen maximum in first-encounter order, modelled from the
spec's words as `specSelectorFirstEncounter`) picks category 2, but the
handler picks category 1: `Object.entries` enumerates the integer keys of
`categoryScores` in ascending numeric order, not first-encounter order. -/
theorem claim_C3_counterexample :
    (specSelectorFirstEncounter jsCompile "x"
      (fetchCriteriaWithCategories
        { documents := [⟨1, "d.txt", FileType.txt, 10, some "x"⟩]
          categories := [⟨1, "A", "#111111", none⟩, ⟨2, "B", "#222222", none⟩]
          criteria := [⟨1, 2, "critB", "x", (1 : ℚ)⟩, ⟨2, 1, "critA", "x", (1 : ℚ)⟩]
          results := [] })).1 = some 2 ∧
    ((classifyDocument jsCompile 1
      { documents := [⟨1, "d.txt", FileType.txt, 10, some "x"⟩]
        categories := [⟨1, "A", "#111111", none⟩, ⟨2, "B", "#222222", none⟩]
        criteria := [⟨1, 2, "critB", "x", (1 : ℚ)⟩, ⟨2, 1, "critA", "x", (1 : ℚ)⟩]
        results := [] }).1.toOption.map (fun r => r.result.category_id)) = some 1 := by
  constructor
  · simp +decide [specSelectorFirstEncounter, keysOf, catRawScore, rowMatches,
      matchCriterion, jsCompile, plainChar, strToLower, strIncludes, listIncludes,
      fetchCriteriaWithCategories, List.foldl, List.find?, List.filterMap]
  · norm_num +decide [classifyDocument, fetchCriteriaWithCategories, computeScores,
      scoreStep, initEntry, bumpEntry, matchCriterion, jsCompile, plainChar, strToLower,
      strIncludes, listIncludes, entriesAscending, selectLoop, selectGo,
      confidenceLevelOf, normalizedScoreOf, ratMin, List.insertionSort,
      List.orderedInsert, List.find?, List.foldl, List.filterMap, List.any,
      List.isEmpty]

/-- C3 (amended): for every scores record (distinct keys, as a JavaScript
record has) containing a positive score, the Selector returns the
category with the strictly greatest raw score; when several categories
share the maximal score it returns the first-seen maximum of a single
left-to-right scan of the entries in ascending category-id order
(ECMAScript integer-key enumeration) — the least id among the maximizers
— a deterministic tie-break fixed by the ids, not by the criteria
retrieval order. -/
theorem claim_C3_amended (m : List (ℕ × CategoryScore))
    (_hnd : (m.map Prod.fst).Nodup)
    (hpos : ∃ e ∈ m, 0 < e.2.score) :
    ∃ cid score, selectLoop (entriesAscending m) = (some cid, score) ∧
      (∃ e ∈ m, e.1 = cid ∧ e.2.score = score) ∧
      (∀ e' ∈ m, e'.2.score ≤ score) ∧
      (∀ e' ∈ m, e'.2.score = score → cid ≤ e'.1) := by
  obtain ⟨e0, he0, he0p⟩ := hpos
  have he0s : e0 ∈ entriesAscending m := (entriesAscending_perm m).mem_iff.mpr he0
  have hsel := selectLoop_of_pos (entriesAscending m) ⟨e0, he0s, he0p⟩
  have hMpos : 0 < maxScore (entriesAscending m) :=
    lt_of_lt_of_le he0p (maxScore_mem_le _ e0 he0s)
  obtain ⟨e1, he1s, he1M⟩ : ∃ e1 ∈ entriesAscending m,
      maxScore (entriesAscending m) = e1.2.score := by
    rcases maxScore_cases (entriesAscending m) with h0 | h1
    · rw [h0] at hMpos
      exact absurd hMpos (lt_irrefl 0)
    · exact h1
  obtain ⟨ef, hfind⟩ : ∃ ef, (entriesAscending m).find?
      (fun e => decide (maxScore (entriesAscending m) ≤ e.2.score)) = some ef := by
    rw [← Option.isSome_iff_exists, List.find?_isSome]
    exact ⟨e1, he1s, decide_eq_true (le_of_eq he1M)⟩
  have hefs := List.mem_of_find?_eq_some hfind
  have hefM : ef.2.score = maxScore (entriesAscending m) := by
    have h1 := List.find?_some hfind
    rw [decide_eq_true_eq] at h1
    exact le_antisymm (maxScore_mem_le _ ef hefs) h1
  refine ⟨ef.1, maxScore (entriesAscending m), by rw [hsel, hfind]; rfl,
    ⟨ef, (entriesAscending_perm m).mem_iff.mp hefs, rfl, hefM⟩, ?_, ?_⟩
  · intro e' he'
    exact maxScore_mem_le _ e' ((entriesAscending_perm m).mem_iff.mpr he')
  · intro e' he' hscore
    exact find?_min_key_sorted _ _ (entriesAscending_sorted m) ef hfind e'
      ((entriesAscending_perm m).mem_iff.mpr he')
      (decide_eq_true (le_of_eq hscore.symm))

/-- C3 (amended) witness: the tied record with keys first inserted in the
order 2, 1; the selection returns the least key 1 at score 1. -/
theorem claim_C3_amended_witness :
    ∃ cid score,
      selectLoop (entriesAscending
        [(2, ⟨1, [], ⟨2, "B", "#222222", none⟩⟩),
         (1, ⟨1, [], ⟨1, "A", "#111111", none⟩⟩)]) = (some cid, score) ∧
      (∃ e ∈ [((2 : ℕ), (⟨1, [], ⟨2, "B", "#222222", none⟩⟩ : CategoryScore)),
              (1, ⟨1, [], ⟨1, "A", "#111111", none⟩⟩)],
        e.1 = cid ∧ e.2.score = score) ∧
      (∀ e' ∈ [((2 : ℕ), (⟨1, [], ⟨2, "B", "#222222", none⟩⟩ : CategoryScore)),
               (1, ⟨1, [], ⟨1, "A", "#111111", none⟩⟩)], e'.2.score ≤ score) ∧
      (∀ e' ∈ [((2 : ℕ), (⟨1, [], ⟨2, "B", "#222222", none⟩⟩ : CategoryScore)),
               (1, ⟨1, [], ⟨1, "A", "#111111", none⟩⟩)],
        e'.2.score = score → cid ≤ e'.1) :=
  claim_C3_amended
    [(2, ⟨1, [], ⟨2, "B", "#222222", none⟩⟩),
     (1, ⟨1, [], ⟨1, "A", "#111111", none⟩⟩)]
    (by decide)
    ⟨(2, ⟨1, [], ⟨2, "B", "#222222", none⟩⟩), by decide, by norm_num⟩

/-- C8: the frame of the handler: no call touches the documents,
categories or criteria tables; a successful call appends exactly one
`ClassificationResult` row (the returned `result`), and a failed call
appends nothing. -/
theorem claim_C8 (compile : String → Except Unit (String → Bool))
    (docId : ℕ) (st : DBState) :
    (classifyDocument compile docId st).2.documents = st.documents ∧
    (classifyDocument compile docId st).2.categories = st.categories ∧
    (classifyDocument compile docId st).2.criteria = st.criteria ∧
    (∀ resp, (classifyDocument compile docId st).1 = Except.ok resp →
      (classifyDocument compile docId st).2.results = st.results ++ [resp.result]) ∧
    (∀ e, (classifyDocument compile docId st).1 = Except.error e →
      (classifyDocument compile docId st).2.results = st.results) := by
  have hcases : (∃ e, classifyDocument compile docId st = (Except.error e, st)) ∨
      (∃ resp, classifyDocument compile docId st =
        (Except.ok resp, { st with results := st.results ++ [resp.result] })) := by
    simp only [classifyDocument]
    repeat' split
    all_goals first
      | exact Or.inl ⟨_, rfl⟩
      | exact Or.inr ⟨_, rfl⟩
  rcases hcases with ⟨e, heq⟩ | ⟨resp, heq⟩ <;> rw [heq]
  · refine ⟨rfl, rfl, rfl, ?_, ?_⟩
    · intro resp h
      simp at h
    · intro e' _
      rfl
  · refine ⟨rfl, rfl, rfl, ?_, ?_⟩
    · intro resp' h
      simp only [Except.ok.injEq] at h
      rw [← h]
    · intro e' h
      simp at h

/-- C8 witness: the frame instantiated at a concrete call — a lookup of a
missing document appends nothing and touches no table. -/
theorem claim_C8_witness :
    (classifyDocument jsCompile 1 ⟨[], [], [], []⟩).2.results = [] ∧
    (classifyDocument jsCompile 1 ⟨[], [], [], []⟩).2.criteria = [] :=
  ⟨(claim_C8 jsCompile 1 ⟨[], [], [], []⟩).2.2.2.2
      ClassifyError.documentNotFound rfl,
   (claim_C8 jsCompile 1 ⟨[], [], [], []⟩).2.2.1⟩

/-- C7 counterexample: nothing forbids two criteria of one category
sharing a name; when both match, the persisted `matched_criteria` is
`["dup", "dup"]` — it has duplicate entries, refuting the no-duplicates
part of the claim as stated. -/
theorem claim_C7_counterexample :
    ((classifyDocument jsCompile 1
      { documents := [⟨1, "d.txt", FileType.txt, 10, some "x"⟩]
        categories := [⟨1, "A", "#111111", none⟩]
        criteria := [⟨1, 1, "dup", "x", (1 : ℚ)⟩, ⟨2, 1, "dup", "x", (1 : ℚ)⟩]
        results := [] }).1.toOption.map (fun r => r.result.matched_criteria)) =
      some ["dup", "dup"] ∧
    ¬ (["dup", "dup"] : List String).Nodup := by
  constructor
  · norm_num +decide [classifyDocument, fetchCriteriaWithCategories, computeScores,
      scoreStep, initEntry, bumpEntry, matchCriterion, jsCompile, plainChar, strToLower,
      strIncludes, listIncludes, entriesAscending, selectLoop, selectGo,
      confidenceLevelOf, normalizedScoreOf, ratMin, List.insertionSort,
      List.orderedInsert, List.find?, List.foldl, List.filterMap, List.any,
      List.isEmpty]
  · decide

/-- C7 (amended): in every successful call (over a state whose criteria
ids are distinct, as the primary key guarantees), the persisted
`matched_criteria` lists the names of a set of *distinct criteria* of the
winning category, in the criteria table's retrieval order; names may
repeat only when two distinct criteria share a name. -/
theorem claim_C7_amended (compile : String → Except Unit (String → Bool))
    (docId : ℕ) (st : DBState) (resp : ClassificationResponse) (st₂ : DBState)
    (hw : ∀ c ∈ st.criteria, 0 ≤ c.weight)
    (hcat : ∀ cat ∈ st.categories, 0 < cat.id)
    (hids : (st.criteria.map (fun c => c.id)).Nodup)
    (h : classifyDocument compile docId st = (Except.ok resp, st₂)) :
    ∃ matched : List Criteria,
      resp.result.matched_criteria = matched.map (fun c => c.name) ∧
      (∀ c ∈ matched, c.category_id = resp.result.category_id) ∧
      (matched.map (fun c => c.id)).Nodup ∧
      matched.Sublist st.criteria := by
  obtain ⟨d, cid, row0, hd, hrow0, hpos, hmax, hmin, hresp, hst⟩ :=
    classify_ok_inv compile docId st resp st₂ hw hcat h
  have hsub : (catMatched compile (docText d)
      (fetchCriteriaWithCategories st) cid).Sublist st.criteria := by
    unfold catMatched
    exact (List.Sublist.map Prod.fst (List.filter_sublist _)).trans
      (fetch_fst_sublist st)
  refine ⟨catMatched compile (docText d) (fetchCriteriaWithCategories st) cid,
    ?_, ?_, ?_, hsub⟩
  · rw [hresp]
    rfl
  · intro c hc
    rw [hresp]
    show c.category_id = cid
    unfold catMatched at hc
    rw [List.mem_map] at hc
    obtain ⟨row, hrowf, hrc⟩ := hc
    have hmemf := List.mem_filter.mp hrowf
    have hcond := hmemf.2
    rw [Bool.and_eq_true] at hcond
    have hid : row.2.id = cid := by simpa using hcond.1
    have hjoin := mem_fetch st row.1 row.2 (by rw [Prod.mk.eta]; exact hmemf.1)
    rw [← hrc]
    exact (hjoin.2.2).symm.trans hid
  · exact (hsub.map (fun c => c.id)).nodup hids

/-- C7 (amended) witness: a concrete successful classification with one
matching criterion — `matched_criteria = ["critA"]`, distinct ids,
sublist of the criteria table. -/
theorem claim_C7_amended_witness :
    ∃ matched : List Criteria,
      (⟨1, 1, 1, ConfidenceLevel.medium, 1 / 3, "Pattern Matching",
        ["critA"]⟩ : ClassificationResult).matched_criteria =
        matched.map (fun c => c.name) ∧
      (∀ c ∈ matched, c.category_id =
        (⟨1, 1, 1, ConfidenceLevel.medium, 1 / 3, "Pattern Matching",
          ["critA"]⟩ : ClassificationResult).category_id) ∧
      (matched.map (fun c => c.id)).Nodup ∧
      matched.Sublist [⟨1, 1, "critA", "x", (1 : ℚ)⟩] :=
  claim_C7_amended jsCompile 1
    ⟨[⟨1, "d.txt", FileType.txt, 10, some "x"⟩], [⟨1, "A", "#111111", none⟩],
     [⟨1, 1, "critA", "x", (1 : ℚ)⟩], []⟩
    ⟨⟨1, "d.txt", FileType.txt, 10, some "x"⟩,
     ⟨1, 1, 1, ConfidenceLevel.medium, 1 / 3, "Pattern Matching", ["critA"]⟩,
     ⟨1, "A", "#111111", none⟩, [⟨1, 1, "critA", "x", 1⟩]⟩
    ⟨[⟨1, "d.txt", FileType.txt, 10, some "x"⟩], [⟨1, "A", "#111111", none⟩],
     [⟨1, 1, "critA", "x", (1 : ℚ)⟩],
     [⟨1, 1, 1, ConfidenceLevel.medium, 1 / 3, "Pattern Matching", ["critA"]⟩]⟩
    (by norm_num)
    (by norm_num)
    (by decide)
    (by norm_num +decide [classifyDocument, fetchCriteriaWithCategories, computeScores,
      scoreStep, initEntry, bumpEntry, matchCriterion, jsCompile, plainChar, strToLower,
      strIncludes, listIncludes, entriesAscending, selectLoop, selectGo,
      confidenceLevelOf, normalizedScoreOf, ratMin, List.insertionSort,
      List.orderedInsert, List.find?, List.foldl, List.filterMap, List.any,
      List.isEmpty])

/-- C10: every successful call returns and persists a result whose
winning category's raw score is strictly positive, whose
`confidence_score` lies in `(0, 1]`, and whose `matched_criteria` is
non-empty, containing the name of at least one matched criterion of
strictly positive weight. -/
theorem claim_C10 (compile : String → Except Unit (String → Bool))
    (docId : ℕ) (st : DBState) (resp : ClassificationResponse) (st₂ : DBState)
    (hw : ∀ c ∈ st.criteria, 0 ≤ c.weight)
    (hcat : ∀ cat ∈ st.categories, 0 < cat.id)
    (h : classifyDocument compile docId st = (Except.ok resp, st₂)) :
    ∃ d, st.documents.find? (fun x => x.id == docId) = some d ∧
      0 < catRawScore compile (docText d) (fetchCriteriaWithCategories st)
        resp.result.category_id ∧
      0 < resp.result.confidence_score ∧
      resp.result.confidence_score ≤ 1 ∧
      resp.result.matched_criteria ≠ [] ∧
      ∃ c ∈ catMatched compile (docText d) (fetchCriteriaWithCategories st)
          resp.result.category_id,
        0 < c.weight ∧ c.name ∈ resp.result.matched_criteria := by
  obtain ⟨d, cid, row0, hd, hrow0, hpos, hmax, hmin, hresp, hst⟩ :=
    classify_ok_inv compile docId st resp st₂ hw hcat h
  subst hresp
  have hmatched : catMatched compile (docText d)
      (fetchCriteriaWithCategories st) cid ≠ [] := by
    intro h0
    rw [catRawScore_eq_matched_sum, h0] at hpos
    simp at hpos
  obtain ⟨c, hc, hcw⟩ : ∃ c ∈ catMatched compile (docText d)
      (fetchCriteriaWithCategories st) cid, 0 < c.weight := by
    have hsum : 0 < ((catMatched compile (docText d)
        (fetchCriteriaWithCategories st) cid).map (fun c => c.weight)).sum := by
      rw [← catRawScore_eq_matched_sum]
      exact hpos
    obtain ⟨w, hwmem, hwpos⟩ := exists_pos_of_sum_pos _ hsum
    rw [List.mem_map] at hwmem
    obtain ⟨c, hc, hcw⟩ := hwmem
    exact ⟨c, hc, hcw ▸ hwpos⟩
  refine ⟨d, hd, hpos, ?_, ?_, ?_, c, hc, hcw, ?_⟩
  · show 0 < normalizedScoreOf (catRawScore compile (docText d)
      (fetchCriteriaWithCategories st) cid)
    unfold normalizedScoreOf ratMin
    split_ifs with h1
    · linarith
    · norm_num
  · show normalizedScoreOf (catRawScore compile (docText d)
      (fetchCriteriaWithCategories st) cid) ≤ 1
    unfold normalizedScoreOf ratMin
    split_ifs with h1
    · exact h1
    · exact le_refl 1
  · show (catMatched compile (docText d)
      (fetchCriteriaWithCategories st) cid).map (fun c => c.name) ≠ []
    intro h0
    rw [List.map_eq_nil_iff] at h0
    exact hmatched h0
  · show c.name ∈ (catMatched compile (docText d)
      (fetchCriteriaWithCategories st) cid).map (fun c => c.name)
    exact List.mem_map_of_mem _ hc

/-- C10 witness: the invariants instantiated at a concrete successful
call — raw score 1, confidence 1/3 ∈ (0, 1], matched list `["critA"]`
from a criterion of weight 1. -/
theorem claim_C10_witness :
    ∃ d, ([⟨1, "w.txt", FileType.txt, 10, some "x"⟩] : List Document).find?
        (fun x => x.id == 1) = some d ∧
      0 < catRawScore jsCompile (docText d)
        (fetchCriteriaWithCategories
          ⟨[⟨1, "w.txt", FileType.txt, 10, some "x"⟩], [⟨1, "A", "#111111", none⟩],
           [⟨1, 1, "critA", "x", (1 : ℚ)⟩], []⟩)
        (⟨1, 1, 1, ConfidenceLevel.medium, 1 / 3, "Pattern Matching",
          ["critA"]⟩ : ClassificationResult).category_id ∧
      0 < (⟨1, 1, 1, ConfidenceLevel.medium, 1 / 3, "Pattern Matching",
        ["critA"]⟩ : ClassificationResult).confidence_score ∧
      (⟨1, 1, 1, ConfidenceLevel.medium, 1 / 3, "Pattern Matching",
        ["critA"]⟩ : ClassificationResult).confidence_score ≤ 1 ∧
      (⟨1, 1, 1, ConfidenceLevel.medium, 1 / 3, "Pattern Matching",
        ["critA"]⟩ : ClassificationResult).matched_criteria ≠ [] ∧
      ∃ c ∈ catMatched jsCompile (docText d)
          (fetchCriteriaWithCategories
            ⟨[⟨1, "w.txt", FileType.txt, 10, some "x"⟩], [⟨1, "A", "#111111", none⟩],
             [⟨1, 1, "critA", "x", (1 : ℚ)⟩], []⟩)
          (⟨1, 1, 1, ConfidenceLevel.medium, 1 / 3, "Pattern Matching",
            ["critA"]⟩ : ClassificationResult).category_id,
        0 < c.weight ∧ c.name ∈ (⟨1, 1, 1, ConfidenceLevel.medium, 1 / 3,
          "Pattern Matching", ["critA"]⟩ : ClassificationResult).matched_criteria :=
  claim_C10 jsCompile 1
    ⟨[⟨1, "w.txt", FileType.txt, 10, some "x"⟩], [⟨1, "A", "#111111", none⟩],
     [⟨1, 1, "critA", "x", (1 : ℚ)⟩], []⟩
    ⟨⟨1, "w.txt", FileType.txt, 10, some "x"⟩,
     ⟨1, 1, 1, ConfidenceLevel.medium, 1 / 3, "Pattern Matching", ["critA"]⟩,
     ⟨1, "A", "#111111", none⟩, [⟨1, 1, "critA", "x", 1⟩]⟩
    ⟨[⟨1, "w.txt", FileType.txt, 10, some "x"⟩], [⟨1, "A", "#111111", none⟩],
     [⟨1, 1, "critA", "x", (1 : ℚ)⟩],
     [⟨1, 1, 1, ConfidenceLevel.medium, 1 / 3, "Pattern Matching", ["critA"]⟩]⟩
    (by norm_num)
    (by norm_num)
    (by norm_num +decide [classifyDocument, fetchCriteriaWithCategories, computeScores,
      scoreStep, initEntry, bumpEntry, matchCriterion, jsCompile, plainChar, strToLower,
      strIncludes, listIncludes, entriesAscending, selectLoop, selectGo,
      confidenceLevelOf, normalizedScoreOf, ratMin, List.insertionSort,
      List.orderedInsert, List.find?, List.foldl, List.filterMap, List.any,
      List.isEmpty])

/-- C1: the handler's error discipline, for any state obeying the DB
invariants (serial category ids are positive, criterion weights are
non-negative as the creation API enforces): `DocumentNotFoundError` iff
no document with the id exists; otherwise `NoContentError` iff the
document's content is empty or absent; otherwise `NoCriteriaError` iff
the criteria-with-category join is empty; otherwise `NoMatchError` iff
every category's raw score is 0; otherwise success — the checks in
exactly this order, each error leaving the state untouched (no scoring
result is persisted). -/
theorem claim_C1 (compile : String → Except Unit (String → Bool))
    (docId : ℕ) (st : DBState)
    (hw : ∀ c ∈ st.criteria, 0 ≤ c.weight)
    (hcat : ∀ cat ∈ st.categories, 0 < cat.id) :
    ((classifyDocument compile docId st).1 =
        Except.error ClassifyError.documentNotFound ↔
      st.documents.find? (fun d => d.id == docId) = none) ∧
    ((classifyDocument compile docId st).1 = Except.error ClassifyError.noContent ↔
      ∃ d, st.documents.find? (fun x => x.id == docId) = some d ∧
        (d.content = none ∨ d.content = some "")) ∧
    ((classifyDocument compile docId st).1 = Except.error ClassifyError.noCriteria ↔
      ∃ d, st.documents.find? (fun x => x.id == docId) = some d ∧
        ¬ (d.content = none ∨ d.content = some "") ∧
        fetchCriteriaWithCategories st = []) ∧
    ((classifyDocument compile docId st).1 = Except.error ClassifyError.noMatch ↔
      ∃ d, st.documents.find? (fun x => x.id == docId) = some d ∧
        ¬ (d.content = none ∨ d.content = some "") ∧
        fetchCriteriaWithCategories st ≠ [] ∧
        ∀ cid : ℕ, catRawScore compile (docText d)
          (fetchCriteriaWithCategories st) cid = 0) ∧
    ((∃ resp, (classifyDocument compile docId st).1 = Except.ok resp) ↔
      ∃ d, st.documents.find? (fun x => x.id == docId) = some d ∧
        ¬ (d.content = none ∨ d.content = some "") ∧
        ∃ cid, 0 < catRawScore compile (docText d)
          (fetchCriteriaWithCategories st) cid) ∧
    (∀ e, (classifyDocument compile docId st).1 = Except.error e →
      (classifyDocument compile docId st).2 = st) := by
  have hmaster :
      (st.documents.find? (fun d => d.id == docId) = none ∧
        classifyDocument compile docId st =
          (Except.error ClassifyError.documentNotFound, st)) ∨
      (∃ d, st.documents.find? (fun x => x.id == docId) = some d ∧
        (d.content = none ∨ d.content = some "") ∧
        classifyDocument compile docId st =
          (Except.error ClassifyError.noContent, st)) ∨
      (∃ d, st.documents.find? (fun x => x.id == docId) = some d ∧
        ¬ (d.content = none ∨ d.content = some "") ∧
        fetchCriteriaWithCategories st = [] ∧
        classifyDocument compile docId st =
          (Except.error ClassifyError.noCriteria, st)) ∨
      (∃ d, st.documents.find? (fun x => x.id == docId) = some d ∧
        ¬ (d.content = none ∨ d.content = some "") ∧
        fetchCriteriaWithCategories st ≠ [] ∧
        (∀ cid : ℕ, catRawScore compile (docText d)
          (fetchCriteriaWithCategories st) cid = 0) ∧
        classifyDocument compile docId st =
          (Except.error ClassifyError.noMatch, st)) ∨
      (∃ d resp st₂, st.documents.find? (fun x => x.id == docId) = some d ∧
        ¬ (d.content = none ∨ d.content = some "") ∧
        (∃ cid, 0 < catRawScore compile (docText d)
          (fetchCriteriaWithCategories st) cid) ∧
        classifyDocument compile docId st = (Except.ok resp, st₂)) := by
    cases hd : st.documents.find? (fun d => d.id == docId) with
    | none => exact Or.inl ⟨rfl, classify_eq_docNotFound compile docId st hd⟩
    | some d =>
      by_cases hm : d.content = none ∨ d.content = some ""
      · exact Or.inr (Or.inl ⟨d, rfl, hm,
          classify_eq_noContent compile docId st d hd hm⟩)
      · by_cases hrows : fetchCriteriaWithCategories st = []
        · exact Or.inr (Or.inr (Or.inl ⟨d, rfl, hm, hrows,
            classify_eq_noCriteria compile docId st d hd hm hrows⟩))
        · by_cases hall : ∀ cid : ℕ, catRawScore compile (docText d)
              (fetchCriteriaWithCategories st) cid = 0
          · exact Or.inr (Or.inr (Or.inr (Or.inl ⟨d, rfl, hm, hrows, hall,
              classify_eq_noMatch compile docId st d hd hm hrows hall⟩)))
          · push_neg at hall
            obtain ⟨cid0, hne⟩ := hall
            have hpos : ∃ cid, 0 < catRawScore compile (docText d)
                (fetchCriteriaWithCategories st) cid :=
              ⟨cid0, catRawScore_pos_of_ne compile (docText d)
                (fetchCriteriaWithCategories st) cid0
                (fetch_weight_nonneg st hw) hne⟩
            obtain ⟨cid, row0, _, _, _, _, heq⟩ :=
              classify_eq_ok compile docId st d hw hcat hd hm hpos
            exact Or.inr (Or.inr (Or.inr (Or.inr
              ⟨d, _, _, rfl, hm, hpos, heq⟩)))
  refine ⟨?_, ?_, ?_, ?_, ?_, ?_⟩
  · constructor
    · intro hL
      rcases hmaster with ⟨h1, hout⟩ | ⟨d, h1, h2, hout⟩ | ⟨d, h1, h2, h3, hout⟩ |
        ⟨d, h1, h2, h3, h4, hout⟩ | ⟨d, resp, st₂, h1, h2, h3, hout⟩ <;>
        rw [hout] at hL <;> first | exact h1 | simp at hL
    · intro hR
      rw [classify_eq_docNotFound compile docId st hR]
  · constructor
    · intro hL
      rcases hmaster with ⟨h1, hout⟩ | ⟨d, h1, h2, hout⟩ | ⟨d, h1, h2, h3, hout⟩ |
        ⟨d, h1, h2, h3, h4, hout⟩ | ⟨d, resp, st₂, h1, h2, h3, hout⟩ <;>
        rw [hout] at hL <;> first | exact ⟨d, h1, h2⟩ | simp at hL
    · rintro ⟨d, hd, hm⟩
      rw [classify_eq_noContent compile docId st d hd hm]
  · constructor
    · intro hL
      rcases hmaster with ⟨h1, hout⟩ | ⟨d, h1, h2, hout⟩ | ⟨d, h1, h2, h3, hout⟩ |
        ⟨d, h1, h2, h3, h4, hout⟩ | ⟨d, resp, st₂, h1, h2, h3, hout⟩ <;>
        rw [hout] at hL <;> first | exact ⟨d, h1, h2, h3⟩ | simp at hL
    · rintro ⟨d, hd, hm, hrows⟩
      rw [classify_eq_noCriteria compile docId st d hd hm hrows]
  · constructor
    · intro hL
      rcases hmaster with ⟨h1, hout⟩ | ⟨d, h1, h2, hout⟩ | ⟨d, h1, h2, h3, hout⟩ |
        ⟨d, h1, h2, h3, h4, hout⟩ | ⟨d, resp, st₂, h1, h2, h3, hout⟩ <;>
        rw [hout] at hL <;> first | exact ⟨d, h1, h2, h3, h4⟩ | simp at hL
    · rintro ⟨d, hd, hm, hrows, hall⟩
      rw [classify_eq_noMatch compile docId st d hd hm hrows hall]
  · constructor
    · rintro ⟨resp', hL⟩
      rcases hmaster with ⟨h1, hout⟩ | ⟨d, h1, h2, hout⟩ | ⟨d, h1, h2, h3, hout⟩ |
        ⟨d, h1, h2, h3, h4, hout⟩ | ⟨d, resp, st₂, h1, h2, h3, hout⟩ <;>
        rw [hout] at hL <;> first | exact ⟨d, h1, h2, h3⟩ | simp at hL
    · rintro ⟨d, hd, hm, hpos⟩
      obtain ⟨cid, row0, _, _, _, _, heq⟩ :=
        classify_eq_ok compile docId st d hw hcat hd hm hpos
      rw [heq]
      exact ⟨_, rfl⟩
  · intro e hL
    rcases hmaster with ⟨h1, hout⟩ | ⟨d, h1, h2, hout⟩ | ⟨d, h1, h2, h3, hout⟩ |
      ⟨d, h1, h2, h3, h4, hout⟩ | ⟨d, resp, st₂, h1, h2, h3, hout⟩ <;>
      (rw [hout] at hL ⊢; (try simp at hL))

/-- C1 witness: the discipline instantiated at a concrete call on an
empty database — the lookup fails first, with `DocumentNotFoundError` and
an untouched state. -/
theorem claim_C1_witness :
    (classifyDocument jsCompile 1 ⟨[], [], [], []⟩).1 =
      Except.error ClassifyError.documentNotFound ∧
    (classifyDocument jsCompile 1 ⟨[], [], [], []⟩).2 = ⟨[], [], [], []⟩ :=
  ⟨((claim_C1 jsCompile 1 ⟨[], [], [], []⟩ (by norm_num) (by norm_num)).1).mpr rfl,
   (claim_C1 jsCompile 1 ⟨[], [], [], []⟩ (by norm_num) (by norm_num)).2.2.2.2.2
     ClassifyError.documentNotFound
     (((claim_C1 jsCompile 1 ⟨[], [], [], []⟩ (by norm_num) (by norm_num)).1).mpr rfl)⟩

end DocClassifier
